import Mathlib

/-!
# Verification of the Tic-Tac-Toe multiplayer server core

Shallow embedding of the game-room lifecycle of `server.go`:
the board model (`generateWinningConditions`, `checkWinner`, `checkDraw`),
and the room handlers (`handleCreateGame`, `handleJoinGame`, `handleGameState`,
`handleGameMove`, `handleLeaveGame`, `handleGameEmote`).

Modelling conventions:
* Go maps (`games.rooms`, `games.codes`) are association lists with
  `List.lookup`; in-place mutation of a room through its pointer becomes a
  functional update of the association list entry (`setRoom`).
* `time.Time` values are `Nat` timestamps (seconds); each call to `time.Now()`
  inside one handler is the handler's `now` parameter.
* Go `int` is `Int` where the source can see negative values (move index,
  requested board size, `LastMove`), `Nat` where values are non-negative by
  construction (the clamped board size, condition indices, scores' growth is
  tracked on `Int` to stay faithful to Go's signed counters).
* Handlers return the pair of the HTTP-level outcome (`Except ApiError _`)
  and the resulting store, so "errors mutate nothing" is a provable statement
  rather than an artefact of the translation.
* Go string case-folding (`strings.ToUpper`) and `strings.TrimSpace` are
  modelled on ASCII via `Char.toUpper` and an ASCII white-space predicate;
  the 6-character join codes live entirely in the ASCII alphabet
  `ABCDEFGHJKLMNPQRSTUVWXYZ23456789`, where this agrees with Go.
-/

/-- `Scores` of `server.go`: wins, losses, draws (Go `int`). -/
structure Scores where
  wins : Int
  losses : Int
  draws : Int
deriving Repr, DecidableEq

/-- `User` of `server.go` (ID, Username, Scores, CreatedAt). -/
structure User where
  id : String
  username : String
  scores : Scores
  createdAt : Nat
deriving Repr, DecidableEq

/-- `GameRoom` of `server.go`. `playerX`/`playerO` are `Option User`
(Go `*User`, `nil` = `none`); `winningLine` indices are the `Nat`-valued
cell indices produced by `generateWinningConditions`. -/
structure GameRoom where
  id : String
  code : String
  boardSize : Nat
  board : List String
  playerX : Option User
  playerO : Option User
  currentTurn : String
  status : String
  winner : String
  winningLine : List Nat
  lastMove : Int
  showEmote : Bool
  emoteType : String
  emoteBy : String
  emoteAt : Nat
  createdAt : Nat
  updatedAt : Nat
deriving Repr, DecidableEq

/-- `GameStore` of `server.go`: rooms keyed by room ID, plus the
code → room-ID index. -/
structure GameStore where
  rooms : List (String × GameRoom)
  codes : List (String × String)
deriving Repr, DecidableEq

/-- HTTP error classes used by the handlers (`jsonError` status codes). -/
inductive ApiError where
  | badRequest
  | unauthorized
  | forbidden
  | notFound
  | conflict
deriving Repr, DecidableEq

instance decEqExcept {ε α : Type} [DecidableEq ε] [DecidableEq α] :
    DecidableEq (Except ε α) := fun a b =>
  match a, b with
  | .error e, .error e' =>
    decidable_of_iff (e = e') ⟨fun h => h ▸ rfl, fun h => by injection h⟩
  | .ok x, .ok y =>
    decidable_of_iff (x = y) ⟨fun h => h ▸ rfl, fun h => by injection h⟩
  | .error _, .ok _ => isFalse fun h => Except.noConfusion h
  | .ok _, .error _ => isFalse fun h => Except.noConfusion h

/-! ## Board model -/

/-- The run length chosen at the top of `generateWinningConditions`:
`winLen := 3; if size == 5 { winLen = 4 }`. -/
def winLength (size : Nat) : Nat :=
  if size = 5 then 4 else 3

/-- The list of loop start values `0, 1, …, size-winLen` of the Go loops
`for start := 0; start <= size-winLen; start++` (empty when `winLen > size`,
matching Go's signed comparison). -/
def startRange (size winLen : Nat) : List Nat :=
  List.range (size + 1 - winLen)

/-- `generateWinningConditions` of `server.go`: every row run, column run,
top-left→bottom-right diagonal run and top-right→bottom-left diagonal run of
length `winLength size`, appended in that order. -/
def generateWinningConditions (size : Nat) : List (List Nat) :=
  let winLen := winLength size
  let rows := (List.range size).flatMap fun row =>
    (startRange size winLen).map fun startCol =>
      (List.range winLen).map fun i => row * size + startCol + i
  let cols := (List.range size).flatMap fun col =>
    (startRange size winLen).map fun startRow =>
      (List.range winLen).map fun i => (startRow + i) * size + col
  let diag1 := (startRange size winLen).flatMap fun row =>
    (startRange size winLen).map fun col =>
      (List.range winLen).map fun i => (row + i) * size + col + i
  let diag2 := (startRange size winLen).flatMap fun row =>
    ((List.range size).drop (winLen - 1)).map fun col =>
      (List.range winLen).map fun i => (row + i) * size + col - i
  rows ++ cols ++ diag1 ++ diag2

/-- Board cell read `board[idx]` (in the source every read is in range;
out-of-range reads default to the empty cell). -/
def cellAt (board : List String) (idx : Nat) : String :=
  board.getD idx ""

/-- The body of `checkWinner`'s loop over one `condition`:
`first := board[condition[0]]; if first == "" continue;` then
`board[idx] == first` for every index of the condition. -/
def conditionWins (board : List String) (cond : List Nat) : Bool :=
  match cond with
  | [] => false
  | c0 :: _ =>
    let first := cellAt board c0
    if first = "" then false
    else cond.all fun idx => cellAt board idx = first

/-- The loop of `checkWinner`: return `(first, condition)` for the first
satisfied condition, in list order. -/
def findWinningCondition (board : List String) :
    List (List Nat) → Option (String × List Nat)
  | [] => none
  | cond :: rest =>
    if conditionWins board cond then
      some (cellAt board (cond.headD 0), cond)
    else findWinningCondition board rest

/-- `checkWinner` of `server.go`; Go's `("", nil)` "no winner" result is
`none`. -/
def checkWinner (board : List String) (size : Nat) : Option (String × List Nat) :=
  findWinningCondition board (generateWinningConditions size)

/-- `checkDraw` of `server.go`: true iff no cell is the empty string. -/
def checkDraw (board : List String) : Bool :=
  board.all fun cell => cell ≠ ""

/-! ## String normalisation and join codes -/

/-- Go `unicode.IsSpace` restricted to the ASCII white-space characters. -/
def isSpaceChar (c : Char) : Bool :=
  c = ' ' ∨ c = '\t' ∨ c = '\n' ∨ c = '\r' ∨ c = '\x0b' ∨ c = '\x0c'

/-- `strings.TrimSpace` on the character list of a string. -/
def trimSpaceChars (s : List Char) : List Char :=
  ((s.dropWhile isSpaceChar).reverse.dropWhile isSpaceChar).reverse

/-- The code normalisation in `handleJoinGame`:
`strings.ToUpper(strings.TrimSpace(req.Code))` (ASCII case-folding). -/
def normalizeCode (s : String) : String :=
  ⟨(trimSpaceChars s.data).map Char.toUpper⟩

/-- The join-code alphabet of `generateGameCode`
(`"ABCDEFGHJKLMNPQRSTUVWXYZ23456789"`, confusable characters removed). -/
def codeChars : List Char := "ABCDEFGHJKLMNPQRSTUVWXYZ23456789".data

/-- `generateGameCode` of `server.go`, with the 6 random bytes as input:
`code[i] = chars[int(bytes[i]) % len(chars)]`. -/
def generateGameCode (bytes : List Nat) : String :=
  ⟨bytes.map fun b => codeChars.getD (b % codeChars.length) 'A'⟩

/-! ## Room handlers -/

/-- Score update `Scores.Wins++` through a room's player pointer. -/
def addWin (u : User) : User :=
  { u with scores := { u.scores with wins := u.scores.wins + 1 } }

/-- Score update `Scores.Losses++` through a room's player pointer. -/
def addLoss (u : User) : User :=
  { u with scores := { u.scores with losses := u.scores.losses + 1 } }

/-- Score update `Scores.Draws++` through a room's player pointer. -/
def addDraw (u : User) : User :=
  { u with scores := { u.scores with draws := u.scores.draws + 1 } }

/-- The seat test of `handleGameMove`:
`room.PlayerX != nil && room.PlayerX.ID == user.ID` gives `"X"`, else the
same for `"O"`, else the caller is not in the game. -/
def seatOf (room : GameRoom) (u : User) : Option String :=
  if room.playerX.any fun px => px.id = u.id then some "X"
  else if room.playerO.any fun po => po.id = u.id then some "O"
  else none

/-- Writing the (possibly) updated room back into the store: the Go code
mutates the room in place through the map's pointer, so every entry with the
room's key now shows the new value. -/
def setRoom (store : GameStore) (rid : String) (room : GameRoom) : GameStore :=
  { store with rooms := store.rooms.map fun p => if p.1 = rid then (rid, room) else p }

/-- The room literal built by `handleCreateGame`, including the board-size
clamp `if req.BoardSize != 3 && req.BoardSize != 5 { req.BoardSize = 3 }`.
Fields absent from the Go literal take Go's zero values. -/
def newRoom (user : User) (reqBoardSize : Int) (id code : String) (now : Nat) :
    GameRoom :=
  let size : Nat := if reqBoardSize = 3 then 3 else if reqBoardSize = 5 then 5 else 3
  { id := id
    code := code
    boardSize := size
    board := List.replicate (size * size) ""
    playerX := some user
    playerO := none
    currentTurn := "X"
    status := "waiting"
    winner := ""
    winningLine := []
    lastMove := -1
    showEmote := false
    emoteType := ""
    emoteBy := ""
    emoteAt := 0
    createdAt := now
    updatedAt := now }

/-- `handleCreateGame` after authentication and body decoding; `id` is the
fresh `generateID()` result and `code` the collision-free code the retry
loop settled on. -/
def handleCreateGame (store : GameStore) (user : User) (reqBoardSize : Int)
    (id code : String) (now : Nat) : GameRoom × GameStore :=
  let room := newRoom user reqBoardSize id code now
  (room, { rooms := (room.id, room) :: store.rooms
           codes := (code, room.id) :: store.codes })

/-- `handleJoinGame` after authentication and body decoding. -/
def handleJoinGame (store : GameStore) (user : User) (codeRaw : String)
    (now : Nat) : Except ApiError GameRoom × GameStore :=
  let code := normalizeCode codeRaw
  match store.codes.lookup code with
  | none => (.error .notFound, store)
  | some roomId =>
    match store.rooms.lookup roomId with
    | none => (.error .notFound, store)
    | some room =>
      if room.playerX.any fun px => px.id = user.id then (.ok room, store)
      else if room.playerO.any fun po => po.id = user.id then (.ok room, store)
      else if room.playerO.isSome then (.error .conflict, store)
      else
        let room' := { room with playerO := some user
                                 status := "playing"
                                 updatedAt := now }
        (.ok room', setRoom store roomId room')

/-- `handleGameState`: the read path, including the lazy emote clearing
(`time.Since(room.EmoteAt) > 3*time.Second`). -/
def handleGameState (store : GameStore) (roomId : String) (now : Nat) :
    Except ApiError GameRoom × GameStore :=
  if roomId = "" then (.error .badRequest, store)
  else
    match store.rooms.lookup roomId with
    | none => (.error .notFound, store)
    | some room =>
      if room.showEmote ∧ now - room.emoteAt > 3 then
        let room' := { room with showEmote := false, emoteType := "", emoteBy := "" }
        (.ok room', setRoom store roomId room')
      else (.ok room, store)

/-- The score block of `handleGameMove`'s winning branch: guarded pointer
increments for the winner's wins and the opponent's losses. -/
def applyWinScores (winner : String) (px po : Option User) :
    Option User × Option User :=
  if winner = "X" then
    match px with
    | some x => (some (addWin x), po.map addLoss)
    | none => (px, po)
  else if winner = "O" then
    match po with
    | some o => (px.map addLoss, some (addWin o))
    | none => (px, po)
  else (px, po)

/-- The mutation part of `handleGameMove` once all validation has passed:
write the mark, record the last move, refresh `UpdatedAt`, then the
winner / draw / switch-turns trichotomy. -/
def applyMoveOutcome (room : GameRoom) (playerSymbol : String) (idx : Nat)
    (now : Nat) : GameRoom :=
  let board := room.board.set idx playerSymbol
  let base := { room with board := board, lastMove := (idx : Int), updatedAt := now }
  match checkWinner board room.boardSize with
  | some (winner, line) =>
    let scored := applyWinScores winner base.playerX base.playerO
    { base with winner := winner
                winningLine := line
                status := "finished"
                playerX := scored.1
                playerO := scored.2 }
  | none =>
    if checkDraw board then
      { base with winner := "draw"
                  status := "finished"
                  playerX := base.playerX.map addDraw
                  playerO := base.playerO.map addDraw }
    else
      { base with currentTurn := if room.currentTurn = "X" then "O" else "X" }

/-- `handleGameMove` after authentication and body decoding: validation in
source order (room exists, status, seat, turn, range, free cell), then the
move application. -/
def handleGameMove (store : GameStore) (user : User) (roomId : String)
    (index : Int) (now : Nat) : Except ApiError GameRoom × GameStore :=
  match store.rooms.lookup roomId with
  | none => (.error .notFound, store)
  | some room =>
    if room.status ≠ "playing" then (.error .badRequest, store)
    else
      match seatOf room user with
      | none => (.error .forbidden, store)
      | some playerSymbol =>
        if room.currentTurn ≠ playerSymbol then (.error .badRequest, store)
        else if index < 0 ∨ (room.board.length : Int) ≤ index then
          (.error .badRequest, store)
        else if cellAt room.board index.toNat ≠ "" then (.error .badRequest, store)
        else
          let room' := applyMoveOutcome room playerSymbol index.toNat now
          (.ok room', setRoom store roomId room')

/-- `handleLeaveGame` after authentication and body decoding: missing room is
idempotent success; waiting/finished rooms are deleted together with their
code-index entry; otherwise the leaving seated player forfeits.  The handler
always answers `{"status":"ok"}`, so only the store is returned. -/
def handleLeaveGame (store : GameStore) (user : User) (roomId : String) :
    GameStore :=
  match store.rooms.lookup roomId with
  | none => store
  | some room =>
    if room.status = "waiting" ∨ room.status = "finished" then
      { rooms := store.rooms.filter fun p => p.1 ≠ roomId
        codes := store.codes.filter fun p => p.1 ≠ room.code }
    else
      if room.playerX.any fun px => px.id = user.id then
        setRoom store roomId
          { room with winner := "O"
                      status := "finished"
                      playerO := room.playerO.map addWin
                      playerX := room.playerX.map addLoss }
      else if room.playerO.any fun po => po.id = user.id then
        setRoom store roomId
          { room with winner := "X"
                      status := "finished"
                      playerX := room.playerX.map addWin
                      playerO := room.playerO.map addLoss }
      else store

/-- `handleGameEmote` after authentication and body decoding. -/
def handleGameEmote (store : GameStore) (user : User) (roomId : String)
    (emoteType : String) (now : Nat) : Except ApiError GameRoom × GameStore :=
  match store.rooms.lookup roomId with
  | none => (.error .notFound, store)
  | some room =>
    if (room.playerX.any fun px => px.id = user.id) ∨
        (room.playerO.any fun po => po.id = user.id) then
      let room' := { room with showEmote := true
                               emoteType := emoteType
                               emoteBy := user.username
                               emoteAt := now
                               updatedAt := now }
      (.ok room', setRoom store roomId room')
    else (.error .forbidden, store)

/-! ## Derived predicates used in the statements -/

/-- A winning combination in the sense of `checkWinner`'s test: the condition
is non-empty and all of its cells hold one identical non-empty mark. -/
def winsAllSame (board : List String) (cond : List Nat) : Prop :=
  ∃ m, m ≠ "" ∧ cond ≠ [] ∧ ∀ i ∈ cond, cellAt board i = m

/-- The validation conjunction of `handleGameMove` for a room that exists:
status is `"playing"`, the caller is seated and owns the current turn, the
index lies in `[0, size²)` and the addressed cell is empty. -/
def moveAllowed (room : GameRoom) (user : User) (index : Int) : Prop :=
  room.status = "playing" ∧
  (∃ sym, seatOf room user = some sym ∧ room.currentTurn = sym) ∧
  0 ≤ index ∧ index < (↑(room.boardSize * room.boardSize) : Int) ∧
  cellAt room.board index.toNat = ""

/-- The turn switch of `handleGameMove`'s non-terminal branch. -/
def flipTurn (t : String) : String :=
  if t = "X" then "O" else "X"

/-- Expected turn marker after `k` completed moves of a game that started
with `"X"`. -/
def turnAfter (k : Nat) : String :=
  if k % 2 = 0 then "X" else "O"

/-- Folding a list of move requests `(user, index, now)` over the store. -/
def applyMoves (roomId : String) : GameStore → List (User × Int × Nat) → GameStore
  | store, [] => store
  | store, (u, i, t) :: rest =>
    applyMoves roomId (handleGameMove store u roomId i t).2 rest

/-- Every move of the sequence is accepted and leaves the room still in
status `"playing"` (no move ends the game). -/
def validPlayingSeq (roomId : String) : GameStore → List (User × Int × Nat) → Prop
  | _, [] => True
  | store, (u, i, t) :: rest =>
    (∃ room', (handleGameMove store u roomId i t).1 = .ok room' ∧
      room'.status = "playing") ∧
    validPlayingSeq roomId (handleGameMove store u roomId i t).2 rest

/-- Strengthened per-room invariant carried through the reachability
induction. -/
def roomInvFull (room : GameRoom) : Prop :=
  room.playerX.isSome ∧
  (room.status = "waiting" ∨ room.status = "playing" ∨ room.status = "finished") ∧
  (room.status = "waiting" → room.playerO = none ∧ room.winner = "") ∧
  (room.status = "playing" → room.playerO.isSome ∧ room.winner = "") ∧
  (room.status = "finished" →
    room.playerO.isSome ∧
    (room.winner = "X" ∨ room.winner = "O" ∨ room.winner = "draw")) ∧
  (∀ c ∈ room.board, c = "" ∨ c = "X" ∨ c = "O")

/-- The invariant holds for every room of the store. -/
def storeInv (s : GameStore) : Prop :=
  ∀ p ∈ s.rooms, roomInvFull p.2

/-- Stores reachable from the empty registry through the game-room
handlers. -/
inductive Reachable : GameStore → Prop where
  | init : Reachable ⟨[], []⟩
  | create (s : GameStore) (u : User) (b : Int) (id code : String) (t : Nat) :
      Reachable s → Reachable (handleCreateGame s u b id code t).2
  | join (s : GameStore) (u : User) (code : String) (t : Nat) :
      Reachable s → Reachable (handleJoinGame s u code t).2
  | stateRead (s : GameStore) (rid : String) (t : Nat) :
      Reachable s → Reachable (handleGameState s rid t).2
  | move (s : GameStore) (u : User) (rid : String) (i : Int) (t : Nat) :
      Reachable s → Reachable (handleGameMove s u rid i t).2
  | leave (s : GameStore) (u : User) (rid : String) :
      Reachable s → Reachable (handleLeaveGame s u rid)
  | emote (s : GameStore) (u : User) (rid : String) (e : String) (t : Nat) :
      Reachable s → Reachable (handleGameEmote s u rid e t).2

/-! ## Concrete data for the witnesses -/

/-- A concrete user (player X of the sample games). -/
def userAlice : User :=
  { id := "u1", username := "alice", scores := ⟨0, 0, 0⟩, createdAt := 0 }

/-- A concrete user (player O of the sample games). -/
def userBob : User :=
  { id := "u2", username := "bob", scores := ⟨0, 0, 0⟩, createdAt := 0 }

/-- A third user, seated in no sample game. -/
def userCarol : User :=
  { id := "u3", username := "carol", scores := ⟨0, 0, 0⟩, createdAt := 0 }

/-- The empty registry. -/
def store0 : GameStore := { rooms := [], codes := [] }

/-- Registry after alice creates a 3×3 room `"r1"` with code `"ABC234"`. -/
def store1 : GameStore := (handleCreateGame store0 userAlice 3 "r1" "ABC234" 10).2

/-- Registry after bob joins room `"r1"`; the room is now `"playing"`. -/
def store2 : GameStore := (handleJoinGame store1 userBob "ABC234" 11).2

/-- The playing room of `store2`. -/
def roomP : GameRoom :=
  { id := "r1", code := "ABC234", boardSize := 3
    board := ["", "", "", "", "", "", "", "", ""]
    playerX := some userAlice, playerO := some userBob
    currentTurn := "X", status := "playing", winner := ""
    winningLine := [], lastMove := -1
    showEmote := false, emoteType := "", emoteBy := "", emoteAt := 0
    createdAt := 10, updatedAt := 11 }

/-- The room of `store2` after alice's accepted move at index 4 (time 12). -/
def roomP1 : GameRoom :=
  { roomP with board := ["", "", "", "", "X", "", "", "", ""]
               currentTurn := "O", lastMove := 4, updatedAt := 12 }

/-- The room after bob's accepted reply at index 0 (time 13). -/
def roomP2 : GameRoom :=
  { roomP1 with board := ["O", "", "", "", "X", "", "", "", ""]
                currentTurn := "X", lastMove := 0, updatedAt := 13 }

/-- The draw game of the spec's scenario family: alternating moves filling
the board with no three-in-a-row; the ninth move is applied separately in
the witnesses. -/
def drawMoves : List (User × Int × Nat) :=
  [(userAlice, 0, 20), (userBob, 2, 21), (userAlice, 1, 22), (userBob, 3, 23),
   (userAlice, 5, 24), (userBob, 4, 25), (userAlice, 6, 26), (userBob, 7, 27)]

/-- `store2` after the first eight draw-game moves. -/
def storeDraw : GameStore := applyMoves "r1" store2 drawMoves

/-- The room of `storeDraw`: eight cells filled, no winner, X to move. -/
def roomD : GameRoom :=
  { roomP with board := ["X", "X", "O", "O", "O", "X", "X", "O", ""]
               lastMove := 7, updatedAt := 27 }

/-- The room after alice's ninth move fills the board with no winning line:
a draw, both draw counters incremented. -/
def roomD9 : GameRoom :=
  { roomD with board := ["X", "X", "O", "O", "O", "X", "X", "O", "X"]
               lastMove := 8, updatedAt := 28
               winner := "draw", status := "finished"
               playerX := some { userAlice with scores := ⟨0, 0, 1⟩ }
               playerO := some { userBob with scores := ⟨0, 0, 1⟩ } }

/-- The spec's scenario A prefix: moves X:4, O:0, X:1, O:2; the final winning
move X:7 is applied separately in the witnesses. -/
def winMoves : List (User × Int × Nat) :=
  [(userAlice, 4, 20), (userBob, 0, 21), (userAlice, 1, 22), (userBob, 2, 23)]

/-- `store2` after the scenario A prefix. -/
def storeWin : GameStore := applyMoves "r1" store2 winMoves

/-- `store2` after bob triggers an emote at time 20. -/
def storeE : GameStore := (handleGameEmote store2 userBob "r1" "deal_with_it" 20).2

/-- The waiting room of `store1`, before bob joins. -/
def roomW : GameRoom :=
  { roomP with playerO := none, status := "waiting", updatedAt := 10 }

/-- The room of `storeWin`: scenario A after X:4, O:0, X:1, O:2. -/
def roomW4 : GameRoom :=
  { roomP with board := ["O", "X", "O", "", "X", "", "", "", ""]
               lastMove := 2, updatedAt := 23 }

/-- The room after alice's winning move X:7 completes the middle column:
winner `"X"`, winning line `[1, 4, 7]`, scores updated, turn still `"X"`. -/
def roomWin : GameRoom :=
  { roomW4 with board := ["O", "X", "O", "", "X", "", "", "X", ""]
                lastMove := 7, updatedAt := 30
                winner := "X", winningLine := [1, 4, 7], status := "finished"
                playerX := some { userAlice with scores := ⟨1, 0, 0⟩ }
                playerO := some { userBob with scores := ⟨0, 1, 0⟩ } }

/-! ## Association-list and store helper lemmas -/

theorem lookup_cons_self {β : Type} (k : String) (v : β) (l : List (String × β)) :
    List.lookup k ((k, v) :: l) = some v := by
  simp [List.lookup_cons]

theorem lookup_cons_ne {β : Type} {k pk : String} (v : β) (l : List (String × β))
    (h : k ≠ pk) : List.lookup k ((pk, v) :: l) = List.lookup k l := by
  rw [List.lookup_cons]
  simp [beq_eq_false_iff_ne.mpr h]

theorem lookup_mem {β : Type} {l : List (String × β)} {k : String} {v : β}
    (h : l.lookup k = some v) : (k, v) ∈ l := by
  induction l with
  | nil => simp [List.lookup_nil] at h
  | cons p rest ih =>
    obtain ⟨pk, pv⟩ := p
    by_cases hk : k = pk
    · subst hk
      rw [lookup_cons_self] at h
      injection h with h
      simp [h]
    · rw [lookup_cons_ne _ _ hk] at h
      exact List.mem_cons_of_mem _ (ih h)

theorem lookup_setRoom (store : GameStore) (rid : String) (room : GameRoom)
    (k : String) :
    (setRoom store rid room).rooms.lookup k =
      if k = rid then (store.rooms.lookup rid).map fun _ => room
      else store.rooms.lookup k := by
  show (store.rooms.map _).lookup k = _
  induction store.rooms with
  | nil => simp [List.lookup_nil]
  | cons p rest ih =>
    obtain ⟨pk, pv⟩ := p
    rw [List.map_cons]
    by_cases hpk : pk = rid
    · subst hpk
      rw [if_pos rfl]
      by_cases hk : k = pk
      · subst hk
        rw [if_pos rfl, lookup_cons_self, lookup_cons_self]
        rfl
      · rw [if_neg hk, lookup_cons_ne _ _ hk, lookup_cons_ne _ _ hk, ih, if_neg hk]
    · rw [if_neg hpk]
      by_cases hk : k = pk
      · subst hk
        have hkrid : k ≠ rid := hpk
        rw [lookup_cons_self, if_neg hkrid, lookup_cons_self]
      · rw [lookup_cons_ne _ _ hk, lookup_cons_ne _ _ hk, ih]
        by_cases hkrid : k = rid
        · rw [if_pos hkrid, if_pos hkrid, lookup_cons_ne _ _ (hkrid ▸ hk)]
        · rw [if_neg hkrid, if_neg hkrid]

theorem mem_setRoom {store : GameStore} {rid : String} {room : GameRoom}
    {p : String × GameRoom} (h : p ∈ (setRoom store rid room).rooms) :
    p.2 = room ∨ p ∈ store.rooms := by
  obtain ⟨q, hq, hfq⟩ := List.mem_map.mp h
  by_cases hqr : q.1 = rid
  · left
    rw [if_pos hqr] at hfq
    rw [← hfq]
  · right
    rw [if_neg hqr] at hfq
    rw [← hfq]
    exact hq

theorem lookup_filter_key {β : Type} (l : List (String × β)) (rid k : String) :
    (l.filter fun p => p.1 ≠ rid).lookup k =
      if k = rid then none else l.lookup k := by
  induction l with
  | nil => simp [List.lookup_nil]
  | cons p rest ih =>
    obtain ⟨pk, pv⟩ := p
    rw [List.filter_cons]
    by_cases hpk : pk = rid
    · rw [if_neg (by simp [hpk]), ih]
      by_cases hk : k = rid
      · rw [if_pos hk, if_pos hk]
      · rw [if_neg hk, if_neg hk, lookup_cons_ne _ _ (fun h => hk (h.trans hpk))]
    · rw [if_pos (by simp [hpk])]
      by_cases hk : k = pk
      · subst hk
        have hkrid : k ≠ rid := hpk
        rw [lookup_cons_self, if_neg hkrid, lookup_cons_self]
      · rw [lookup_cons_ne _ _ hk, lookup_cons_ne _ _ hk, ih]

theorem getD_mem_or {α : Type} (l : List α) (i : Nat) (d : α) :
    l.getD i d ∈ l ∨ l.getD i d = d := by
  by_cases h : i < l.length
  · left
    rw [List.getD_eq_getElem l d h]
    exact l.getElem_mem h
  · right
    exact List.getD_eq_default l d (Nat.le_of_not_lt h)

theorem dropWhile_eq_self {p : Char → Bool} {l : List Char}
    (h : ∀ c ∈ l, p c = false) : l.dropWhile p = l := by
  cases l with
  | nil => rfl
  | cons c rest => simp [List.dropWhile_cons, h c (List.mem_cons_self c rest)]

theorem map_eq_self_of_fixed {α : Type} (f : α → α) (l : List α)
    (h : ∀ c ∈ l, f c = c) : l.map f = l := by
  induction l with
  | nil => rfl
  | cons c rest ih =>
    rw [List.map_cons, h c (List.mem_cons_self c rest),
      ih fun c' hc' => h c' (List.mem_cons_of_mem c hc')]

theorem trimSpaceChars_eq_self {l : List Char}
    (h : ∀ c ∈ l, isSpaceChar c = false) : trimSpaceChars l = l := by
  unfold trimSpaceChars
  rw [dropWhile_eq_self h,
    dropWhile_eq_self fun c hc => h c (List.mem_reverse.mp hc), List.reverse_reverse]

/-! ## Board-model lemmas -/

theorem conditionWins_iff (board : List String) (cond : List Nat) :
    conditionWins board cond = true ↔ winsAllSame board cond := by
  cases cond with
  | nil =>
    constructor
    · intro h
      exact absurd h (by simp [conditionWins])
    · rintro ⟨m, _, hne, _⟩
      exact absurd rfl hne
  | cons c0 rest =>
    rw [show conditionWins board (c0 :: rest) =
      (if cellAt board c0 = "" then false
        else (c0 :: rest).all fun idx => cellAt board idx = cellAt board c0) from rfl]
    by_cases h0 : cellAt board c0 = ""
    · rw [if_pos h0]
      constructor
      · intro h
        cases h
      · rintro ⟨m, hm, _, hall⟩
        have hc0 : cellAt board c0 = m := hall c0 (List.mem_cons_self c0 rest)
        rw [h0] at hc0
        exact absurd hc0.symm hm
    · rw [if_neg h0]
      simp only [List.all_eq_true, decide_eq_true_eq]
      constructor
      · intro hall
        exact ⟨cellAt board c0, h0, by simp, hall⟩
      · rintro ⟨m, _, _, hall⟩ i hi
        rw [hall i hi, hall c0 (List.mem_cons_self c0 rest)]

theorem findWinningCondition_eq_none_iff (board : List String)
    (conds : List (List Nat)) :
    findWinningCondition board conds = none ↔
      ∀ c ∈ conds, conditionWins board c = false := by
  induction conds with
  | nil => simp [findWinningCondition]
  | cons c cs ih =>
    rw [findWinningCondition]
    cases hc : conditionWins board c with
    | true => simp [hc]
    | false => simp [hc, ih]

theorem findWinningCondition_eq_some (board : List String)
    (conds : List (List Nat)) (m : String) (line : List Nat)
    (h : findWinningCondition board conds = some (m, line)) :
    conditionWins board line = true ∧ m = cellAt board (line.headD 0) ∧
      ∃ pre post, conds = pre ++ line :: post ∧
        ∀ c ∈ pre, conditionWins board c = false := by
  induction conds with
  | nil => simp [findWinningCondition] at h
  | cons c cs ih =>
    rw [findWinningCondition] at h
    cases hc : conditionWins board c with
    | true =>
      rw [hc, if_pos rfl] at h
      injection h with h
      injection h with h1 h2
      subst h1
      subst h2
      exact ⟨hc, rfl, [], cs, rfl, by simp⟩
    | false =>
      rw [hc] at h
      simp only [Bool.false_eq_true, if_false] at h
      obtain ⟨hw, hm, pre, post, heq, hpre⟩ := ih h
      refine ⟨hw, hm, c :: pre, post, by rw [heq, List.cons_append], ?_⟩
      intro c' hc'
      rcases List.mem_cons.mp hc' with rfl | h'
      · exact hc
      · exact hpre c' h'

theorem checkWinner_mark (board : List String) (size : Nat) (m : String)
    (line : List Nat) (h : checkWinner board size = some (m, line)) :
    m ≠ "" ∧ m ∈ board := by
  obtain ⟨hw, hm, -⟩ := findWinningCondition_eq_some _ _ _ _ h
  obtain ⟨m', hm', hne, hall⟩ := (conditionWins_iff board line).mp hw
  cases line with
  | nil => exact absurd rfl hne
  | cons c0 rest =>
    have hc0 : cellAt board c0 = m' := hall c0 (List.mem_cons_self c0 rest)
    rw [List.headD_cons] at hm
    rw [hm, hc0]
    refine ⟨hm', ?_⟩
    rcases getD_mem_or board c0 "" with hmem | hdef
    · rw [← hc0]
      exact hmem
    · rw [cellAt, hdef] at hc0
      exact absurd hc0.symm hm'

/-! ## Move-handler characterisation -/

theorem handleGameMove_ok_iff (store : GameStore) (user : User) (roomId : String)
    (index : Int) (now : Nat) (room' : GameRoom) :
    (handleGameMove store user roomId index now).1 = .ok room' ↔
    ∃ room, store.rooms.lookup roomId = some room ∧
      room.status = "playing" ∧
      ∃ sym, seatOf room user = some sym ∧ room.currentTurn = sym ∧
        0 ≤ index ∧ index < (room.board.length : Int) ∧
        cellAt room.board index.toNat = "" ∧
        room' = applyMoveOutcome room sym index.toNat now := by
  cases hl : store.rooms.lookup roomId with
  | none => simp [handleGameMove, hl]
  | some room =>
    simp only [handleGameMove, hl, Option.some.injEq, exists_eq_left']
    by_cases hst : room.status = "playing"
    · rw [if_neg (not_not_intro hst)]
      cases hseat : seatOf room user with
      | none =>
        simp only [hseat]
        constructor
        · intro h
          exact Except.noConfusion h
        · rintro ⟨-, sym, hseat', -⟩
          exact Option.noConfusion hseat'
      | some sym =>
        simp only [hseat]
        by_cases hturn : room.currentTurn = sym
        · rw [if_neg (not_not_intro hturn)]
          by_cases hcond : index < 0 ∨ (room.board.length : Int) ≤ index
          · rw [if_pos hcond]
            constructor
            · intro h
              exact Except.noConfusion h
            · rintro ⟨-, sym', hseat', hturn', h0, hlen, -⟩
              rcases hcond with h | h
              · exact absurd h (not_lt.mpr h0)
              · exact absurd h (not_le.mpr hlen)
          · rw [if_neg hcond]
            push_neg at hcond
            by_cases hcell : cellAt room.board index.toNat = ""
            · rw [if_neg (not_not_intro hcell)]
              constructor
              · intro h
                injection h with h
                exact ⟨hst, sym, rfl, hturn, hcond.1, hcond.2, hcell, h.symm⟩
              · rintro ⟨-, sym', hseat', -, -, -, -, hr⟩
                injection hseat' with hs
                subst hs
                rw [hr]
            · rw [if_pos hcell]
              constructor
              · intro h
                exact Except.noConfusion h
              · rintro ⟨-, sym', hseat', -, -, -, hcell', -⟩
                exact absurd hcell' hcell
        · rw [if_pos hturn]
          constructor
          · intro h
            exact Except.noConfusion h
          · rintro ⟨-, sym', hseat', hturn', -⟩
            injection hseat' with hs
            subst hs
            exact absurd hturn' hturn
    · rw [if_pos hst]
      constructor
      · intro h
        exact Except.noConfusion h
      · rintro ⟨hst', -⟩
        exact absurd hst' hst

theorem handleGameMove_ok_snd (store : GameStore) (user : User) (roomId : String)
    (index : Int) (now : Nat) (room' : GameRoom)
    (h : (handleGameMove store user roomId index now).1 = .ok room') :
    (handleGameMove store user roomId index now).2 = setRoom store roomId room' := by
  cases hl : store.rooms.lookup roomId with
  | none => simp [handleGameMove, hl] at h
  | some room =>
    simp only [handleGameMove, hl] at h ⊢
    by_cases hst : room.status = "playing"
    · simp only [hst, ne_eq, not_true_eq_false, if_false] at h ⊢
      cases hseat : seatOf room user with
      | none => simp [hseat] at h
      | some sym =>
        simp only [hseat] at h ⊢
        by_cases hturn : room.currentTurn = sym
        · simp only [hturn, ne_eq, not_true_eq_false, if_false] at h ⊢
          by_cases hcond : index < 0 ∨ (room.board.length : Int) ≤ index
          · rw [if_pos hcond] at h
            cases h
          · rw [if_neg hcond] at h ⊢
            by_cases hcell : cellAt room.board index.toNat = ""
            · simp only [hcell, ne_eq, not_true_eq_false, if_false] at h ⊢
              injection h with h
              rw [h]
            · simp [hcell] at h
        · simp [hturn] at h
    · simp [hst] at h

theorem handleGameMove_result_cases (store : GameStore) (user : User)
    (roomId : String) (index : Int) (now : Nat) :
    (store.rooms.lookup roomId = none ∧
      handleGameMove store user roomId index now = (.error .notFound, store)) ∨
    ∃ room, store.rooms.lookup roomId = some room ∧
      ((¬ room.status = "playing" ∧
          handleGameMove store user roomId index now = (.error .badRequest, store)) ∨
       (room.status = "playing" ∧ seatOf room user = none ∧
          handleGameMove store user roomId index now = (.error .forbidden, store)) ∨
       ∃ sym, room.status = "playing" ∧ seatOf room user = some sym ∧
         ((room.currentTurn ≠ sym ∧
            handleGameMove store user roomId index now = (.error .badRequest, store)) ∨
          (room.currentTurn = sym ∧
            (index < 0 ∨ (room.board.length : Int) ≤ index) ∧
            handleGameMove store user roomId index now = (.error .badRequest, store)) ∨
          (room.currentTurn = sym ∧ 0 ≤ index ∧
            index < (room.board.length : Int) ∧
            cellAt room.board index.toNat ≠ "" ∧
            handleGameMove store user roomId index now = (.error .badRequest, store)) ∨
          (room.currentTurn = sym ∧ 0 ≤ index ∧
            index < (room.board.length : Int) ∧
            cellAt room.board index.toNat = "" ∧
            handleGameMove store user roomId index now =
              (.ok (applyMoveOutcome room sym index.toNat now),
               setRoom store roomId (applyMoveOutcome room sym index.toNat now))))) := by
  cases hl : store.rooms.lookup roomId with
  | none =>
    left
    exact ⟨rfl, by simp [handleGameMove, hl]⟩
  | some room =>
    right
    refine ⟨room, rfl, ?_⟩
    by_cases hst : room.status = "playing"
    · cases hseat : seatOf room user with
      | none =>
        right
        left
        refine ⟨hst, rfl, ?_⟩
        simp only [handleGameMove, hl, hseat]
        rw [if_neg (not_not_intro hst)]
      | some sym =>
        right
        right
        refine ⟨sym, hst, rfl, ?_⟩
        by_cases hturn : room.currentTurn = sym
        · by_cases hcond : index < 0 ∨ (room.board.length : Int) ≤ index
          · right
            left
            refine ⟨hturn, hcond, ?_⟩
            simp only [handleGameMove, hl, hseat]
            rw [if_neg (not_not_intro hst), if_neg (not_not_intro hturn),
              if_pos hcond]
          · obtain ⟨h1, h2⟩ := not_or.mp hcond
            by_cases hcell : cellAt room.board index.toNat = ""
            · right
              right
              right
              refine ⟨hturn, not_lt.mp h1, not_le.mp h2, hcell, ?_⟩
              simp only [handleGameMove, hl, hseat]
              rw [if_neg (not_not_intro hst), if_neg (not_not_intro hturn),
                if_neg hcond, if_neg (not_not_intro hcell)]
            · right
              right
              left
              refine ⟨hturn, not_lt.mp h1, not_le.mp h2, hcell, ?_⟩
              simp only [handleGameMove, hl, hseat]
              rw [if_neg (not_not_intro hst), if_neg (not_not_intro hturn),
                if_neg hcond, if_pos hcell]
        · left
          refine ⟨hturn, ?_⟩
          simp only [handleGameMove, hl, hseat]
          rw [if_neg (not_not_intro hst), if_pos hturn]
    · left
      refine ⟨hst, ?_⟩
      simp only [handleGameMove, hl]
      rw [if_pos hst]

theorem handleGameMove_error_snd (store : GameStore) (user : User)
    (roomId : String) (index : Int) (now : Nat) (e : ApiError)
    (h : (handleGameMove store user roomId index now).1 = .error e) :
    (handleGameMove store user roomId index now).2 = store := by
  cases hl : store.rooms.lookup roomId with
  | none => simp [handleGameMove, hl]
  | some room =>
    simp only [handleGameMove, hl] at h ⊢
    by_cases hst : room.status = "playing"
    · simp only [hst, ne_eq, not_true_eq_false, if_false] at h ⊢
      cases hseat : seatOf room user with
      | none => simp [hseat]
      | some sym =>
        simp only [hseat] at h ⊢
        by_cases hturn : room.currentTurn = sym
        · simp only [hturn, ne_eq, not_true_eq_false, if_false] at h ⊢
          by_cases hcond : index < 0 ∨ (room.board.length : Int) ≤ index
          · rw [if_pos hcond]
          · rw [if_neg hcond] at h ⊢
            by_cases hcell : cellAt room.board index.toNat = ""
            · simp [hcell] at h
            · simp [hcell]
        · simp [hturn]
    · simp [hst]

/-- C1: a move succeeds exactly when the room exists, its status is
`"playing"`, the caller is seated, owns the current turn, the index is in
`[0, size²)` and the cell is empty; failures are classified as `NotFound`
(unknown room), `Forbidden` (room in play but caller unseated) or
`BadRequest` (wrong status, wrong turn, out-of-range or occupied cell), and
every failed move leaves the store untouched. -/
theorem c1_move_validation (store : GameStore) (user : User) (roomId : String)
    (index : Int) (now : Nat)
    (hlen : ∀ room, store.rooms.lookup roomId = some room →
      room.board.length = room.boardSize * room.boardSize) :
    ((∃ room', (handleGameMove store user roomId index now).1 = .ok room') ↔
      ∃ room, store.rooms.lookup roomId = some room ∧ moveAllowed room user index) ∧
    ((handleGameMove store user roomId index now).1 = .error .notFound ↔
      store.rooms.lookup roomId = none) ∧
    (∀ room, store.rooms.lookup roomId = some room →
      ((handleGameMove store user roomId index now).1 = .error .forbidden ↔
        room.status = "playing" ∧ seatOf room user = none) ∧
      ((handleGameMove store user roomId index now).1 = .error .badRequest ↔
        ¬ room.status = "playing" ∨
          ∃ sym, seatOf room user = some sym ∧
            (room.currentTurn ≠ sym ∨ index < 0 ∨
              (↑(room.boardSize * room.boardSize) : Int) ≤ index ∨
              cellAt room.board index.toNat ≠ ""))) ∧
    (∀ e, (handleGameMove store user roomId index now).1 = .error e →
      (handleGameMove store user roomId index now).2 = store) := by
  refine ⟨?_, ?_, ?_, fun e h => handleGameMove_error_snd store user roomId index now e h⟩
  · constructor
    · rintro ⟨room', hok⟩
      obtain ⟨room, hl, hst, sym, hseat, hturn, h0, hlt, hcell, -⟩ :=
        (handleGameMove_ok_iff store user roomId index now room').mp hok
      refine ⟨room, hl, hst, ⟨sym, hseat, hturn⟩, h0, ?_, hcell⟩
      rw [← hlen room hl]
      exact hlt
    · rintro ⟨room, hl, hst, ⟨sym, hseat, hturn⟩, h0, hlt, hcell⟩
      refine ⟨applyMoveOutcome room sym index.toNat now,
        (handleGameMove_ok_iff store user roomId index now _).mpr
          ⟨room, hl, hst, sym, hseat, hturn, h0, ?_, hcell, rfl⟩⟩
      rw [hlen room hl]
      exact hlt
  · rcases handleGameMove_result_cases store user roomId index now with
      ⟨hl, heq⟩ | ⟨room, hl, hcase⟩
    · rw [heq, hl]
      simp
    · rw [hl]
      constructor
      · intro h
        exfalso
        rcases hcase with ⟨-, heq⟩ | ⟨-, -, heq⟩ | ⟨sym, -, -, hsub⟩
        · rw [heq] at h
          injection h with h
          exact ApiError.noConfusion h
        · rw [heq] at h
          injection h with h
          exact ApiError.noConfusion h
        · rcases hsub with ⟨-, heq⟩ | ⟨-, -, heq⟩ | ⟨-, -, -, -, heq⟩ | ⟨-, -, -, -, heq⟩
          · rw [heq] at h
            injection h with h
            exact ApiError.noConfusion h
          · rw [heq] at h
            injection h with h
            exact ApiError.noConfusion h
          · rw [heq] at h
            injection h with h
            exact ApiError.noConfusion h
          · rw [heq] at h
            exact Except.noConfusion h
      · intro h
        exact Option.noConfusion h
  · intro room1 hl1
    rcases handleGameMove_result_cases store user roomId index now with
      ⟨hl, -⟩ | ⟨room, hl, hcase⟩
    · rw [hl1] at hl
      exact Option.noConfusion hl
    · rw [hl1] at hl
      injection hl with hroom
      subst hroom
      refine ⟨?_, ?_⟩
      · rcases hcase with ⟨hst, heq⟩ | ⟨hst, hseat, heq⟩ | ⟨sym, hst, hseat, hsub⟩
        · rw [heq]
          constructor
          · intro h
            injection h with h
            exact ApiError.noConfusion h
          · rintro ⟨hst', -⟩
            exact absurd hst' hst
        · rw [heq]
          exact iff_of_true rfl ⟨hst, hseat⟩
        · have hbad : ¬ (room1.status = "playing" ∧ seatOf room1 user = none) := by
            rintro ⟨-, hs⟩
            rw [hseat] at hs
            exact Option.noConfusion hs
          rcases hsub with ⟨-, heq⟩ | ⟨-, -, heq⟩ | ⟨-, -, -, -, heq⟩ | ⟨-, -, -, -, heq⟩
          · rw [heq]
            refine iff_of_false ?_ hbad
            intro h
            injection h with h
            exact ApiError.noConfusion h
          · rw [heq]
            refine iff_of_false ?_ hbad
            intro h
            injection h with h
            exact ApiError.noConfusion h
          · rw [heq]
            refine iff_of_false ?_ hbad
            intro h
            injection h with h
            exact ApiError.noConfusion h
          · rw [heq]
            refine iff_of_false ?_ hbad
            intro h
            exact Except.noConfusion h
      · rcases hcase with ⟨hst, heq⟩ | ⟨hst, hseat, heq⟩ | ⟨sym, hst, hseat, hsub⟩
        · rw [heq]
          exact iff_of_true rfl (Or.inl hst)
        · rw [heq]
          refine iff_of_false ?_ ?_
          · intro h
            injection h with h
            exact ApiError.noConfusion h
          · rintro (h | ⟨sym, hs, -⟩)
            · exact h hst
            · rw [hseat] at hs
              exact Option.noConfusion hs
        · rcases hsub with ⟨hturn, heq⟩ | ⟨hturn, hcond, heq⟩ |
            ⟨hturn, h0, hlt, hcell, heq⟩ | ⟨hturn, h0, hlt, hcell, heq⟩
          · rw [heq]
            exact iff_of_true rfl (Or.inr ⟨sym, hseat, Or.inl hturn⟩)
          · rw [heq]
            refine iff_of_true rfl (Or.inr ⟨sym, hseat, Or.inr ?_⟩)
            rcases hcond with h | h
            · exact Or.inl h
            · refine Or.inr (Or.inl ?_)
              rw [← hlen room1 hl1]
              exact h
          · rw [heq]
            exact iff_of_true rfl (Or.inr ⟨sym, hseat, Or.inr (Or.inr (Or.inr hcell))⟩)
          · rw [heq]
            refine iff_of_false (fun h => Except.noConfusion h) ?_
            rintro (h | ⟨sym', hs, hdis⟩)
            · exact h hst
            · rw [hseat] at hs
              injection hs with hs
              subst hs
              rcases hdis with h | h | h | h
              · exact h hturn
              · exact absurd h (not_lt.mpr h0)
              · rw [← hlen room1 hl1] at h
                exact absurd h (not_le.mpr hlt)
              · exact h hcell

/-- Witness for C1: on the concrete playing room of `store2`, alice's
opening move at index 4 is accepted. -/
theorem c1_witness :
    ∃ room', (handleGameMove store2 userAlice "r1" 4 12).1 = .ok room' :=
  (c1_move_validation store2 userAlice "r1" 4 12
    (fun room h => by
      rw [show store2.rooms.lookup "r1" = some roomP from by decide] at h
      injection h with h
      rw [← h]
      decide)).1.mpr
    ⟨roomP, by decide, by decide, ⟨"X", by decide, by decide⟩,
      by decide, by decide, by decide⟩

theorem move_ok_lookup (store : GameStore) (user : User) (roomId : String)
    (index : Int) (now : Nat) (room room' : GameRoom)
    (hl : store.rooms.lookup roomId = some room)
    (hok : (handleGameMove store user roomId index now).1 = .ok room') :
    (handleGameMove store user roomId index now).2.rooms.lookup roomId =
      some room' := by
  rw [handleGameMove_ok_snd store user roomId index now room' hok, lookup_setRoom,
    if_pos rfl, hl]
  rfl

theorem move_ok_playing_flips_turn (store : GameStore) (user : User)
    (roomId : String) (index : Int) (now : Nat) (room room' : GameRoom)
    (hl : store.rooms.lookup roomId = some room)
    (hok : (handleGameMove store user roomId index now).1 = .ok room')
    (hplaying : room'.status = "playing") :
    room'.currentTurn = flipTurn room.currentTurn := by
  obtain ⟨room0, hl0, hst, sym, hseat, hturn, h0, hlt, hcell, hr⟩ :=
    (handleGameMove_ok_iff store user roomId index now room').mp hok
  rw [hl] at hl0
  injection hl0 with hl0
  subst hl0
  subst hr
  cases hw : checkWinner (room.board.set index.toNat sym) room.boardSize with
  | some p =>
    obtain ⟨w, line⟩ := p
    simp only [applyMoveOutcome, hw] at hplaying
    exact absurd hplaying (by decide)
  | none =>
    by_cases hd : checkDraw (room.board.set index.toNat sym) = true
    · simp only [applyMoveOutcome, hw, hd, if_true] at hplaying
      exact absurd hplaying (by decide)
    · simp only [applyMoveOutcome, hw, hd, if_false]
      rfl

theorem flipTurn_turnAfter (k : Nat) : flipTurn (turnAfter k) = turnAfter (k + 1) := by
  unfold flipTurn turnAfter
  rcases Nat.mod_two_eq_zero_or_one k with h | h <;>
    simp [h, Nat.add_mod]

theorem validPlayingSeq_turn (roomId : String) (moves : List (User × Int × Nat)) :
    ∀ (store : GameStore) (room : GameRoom) (k : Nat),
      store.rooms.lookup roomId = some room →
      room.currentTurn = turnAfter k →
      validPlayingSeq roomId store moves →
      ∃ room', (applyMoves roomId store moves).rooms.lookup roomId = some room' ∧
        room'.currentTurn = turnAfter (k + moves.length) := by
  induction moves with
  | nil =>
    intro store room k hl ht _
    exact ⟨room, hl, by simpa using ht⟩
  | cons mv rest ih =>
    obtain ⟨u, i, t⟩ := mv
    intro store room k hl ht hv
    obtain ⟨⟨room', hok, hpl⟩, hrest⟩ := hv
    have hl' := move_ok_lookup store u roomId i t room room' hl hok
    have ht' : room'.currentTurn = turnAfter (k + 1) := by
      rw [move_ok_playing_flips_turn store u roomId i t room room' hl hok hpl, ht,
        flipTurn_turnAfter]
    obtain ⟨room'', hl'', ht''⟩ :=
      ih (handleGameMove store u roomId i t).2 room' (k + 1) hl' ht' hrest
    refine ⟨room'', hl'', ?_⟩
    rw [ht'']
    congr 1
    simp [List.length_cons]
    omega

theorem seatOf_eq (room : GameRoom) (u : User) (sym : String)
    (h : seatOf room u = some sym) : sym = "X" ∨ sym = "O" := by
  unfold seatOf at h
  by_cases hx : (room.playerX.any fun px => px.id = u.id) = true
  · rw [if_pos hx] at h
    injection h with h
    exact Or.inl h.symm
  · rw [if_neg hx] at h
    by_cases ho : (room.playerO.any fun po => po.id = u.id) = true
    · rw [if_pos ho] at h
      injection h with h
      exact Or.inr h.symm
    · rw [if_neg ho] at h
      exact Option.noConfusion h

theorem handleJoinGame_snd_cases (store : GameStore) (u : User) (code : String)
    (t : Nat) :
    (handleJoinGame store u code t).2 = store ∨
    ∃ roomId room, store.rooms.lookup roomId = some room ∧ room.playerO = none ∧
      (handleJoinGame store u code t).1 =
        .ok { room with playerO := some u, status := "playing", updatedAt := t } ∧
      (handleJoinGame store u code t).2 =
        setRoom store roomId
          { room with playerO := some u, status := "playing", updatedAt := t } := by
  cases hc : store.codes.lookup (normalizeCode code) with
  | none =>
    left
    simp [handleJoinGame, hc]
  | some roomId =>
    cases hr : store.rooms.lookup roomId with
    | none =>
      left
      simp [handleJoinGame, hc, hr]
    | some room =>
      by_cases hx : (room.playerX.any fun px => px.id = u.id) = true
      · left
        simp only [handleJoinGame, hc, hr]
        rw [if_pos hx]
      · by_cases ho : (room.playerO.any fun po => po.id = u.id) = true
        · left
          simp only [handleJoinGame, hc, hr]
          rw [if_neg hx, if_pos ho]
        · by_cases hsome : room.playerO.isSome = true
          · left
            simp only [handleJoinGame, hc, hr]
            rw [if_neg hx, if_neg ho, if_pos hsome]
          · right
            refine ⟨roomId, room, hr, Option.not_isSome_iff_eq_none.mp hsome, ?_, ?_⟩
            · simp only [handleJoinGame, hc, hr]
              rw [if_neg hx, if_neg ho, if_neg hsome]
            · simp only [handleJoinGame, hc, hr]
              rw [if_neg hx, if_neg ho, if_neg hsome]

theorem handleGameState_snd_cases (store : GameStore) (rid : String) (t : Nat) :
    (handleGameState store rid t).2 = store ∨
    ∃ room, store.rooms.lookup rid = some room ∧
      (handleGameState store rid t).2 =
        setRoom store rid
          { room with showEmote := false, emoteType := "", emoteBy := "" } := by
  by_cases hid : rid = ""
  · left
    simp [handleGameState, hid]
  · cases hr : store.rooms.lookup rid with
    | none =>
      left
      simp [handleGameState, hid, hr]
    | some room =>
      by_cases hcl : room.showEmote = true ∧ t - room.emoteAt > 3
      · right
        refine ⟨room, rfl, ?_⟩
        simp only [handleGameState, hr]
        rw [if_neg hid, if_pos hcl]
      · left
        simp only [handleGameState, hr]
        rw [if_neg hid, if_neg hcl]

theorem handleGameEmote_snd_cases (store : GameStore) (u : User) (rid : String)
    (e : String) (t : Nat) :
    (handleGameEmote store u rid e t).2 = store ∨
    ∃ room, store.rooms.lookup rid = some room ∧
      (handleGameEmote store u rid e t).2 =
        setRoom store rid
          { room with showEmote := true, emoteType := e,
                      emoteBy := u.username, emoteAt := t, updatedAt := t } := by
  cases hr : store.rooms.lookup rid with
  | none =>
    left
    simp [handleGameEmote, hr]
  | some room =>
    by_cases hin : (room.playerX.any fun px => px.id = u.id) = true ∨
        (room.playerO.any fun po => po.id = u.id) = true
    · right
      refine ⟨room, rfl, ?_⟩
      simp only [handleGameEmote, hr]
      rw [if_pos hin]
    · left
      simp only [handleGameEmote, hr]
      rw [if_neg hin]

theorem handleLeaveGame_cases (store : GameStore) (u : User) (rid : String) :
    handleLeaveGame store u rid = store ∨
    (∃ room, store.rooms.lookup rid = some room ∧
      (room.status = "waiting" ∨ room.status = "finished") ∧
      handleLeaveGame store u rid =
        { rooms := store.rooms.filter fun p => p.1 ≠ rid
          codes := store.codes.filter fun p => p.1 ≠ room.code }) ∨
    (∃ room, store.rooms.lookup rid = some room ∧
      ¬ (room.status = "waiting" ∨ room.status = "finished") ∧
      (((room.playerX.any fun px => px.id = u.id) = true ∧
          handleLeaveGame store u rid = setRoom store rid
            { room with winner := "O", status := "finished",
                        playerO := room.playerO.map addWin,
                        playerX := room.playerX.map addLoss }) ∨
       ((room.playerX.any fun px => px.id = u.id) = false ∧
          (room.playerO.any fun po => po.id = u.id) = true ∧
          handleLeaveGame store u rid = setRoom store rid
            { room with winner := "X", status := "finished",
                        playerX := room.playerX.map addWin,
                        playerO := room.playerO.map addLoss }))) := by
  cases hr : store.rooms.lookup rid with
  | none =>
    left
    simp [handleLeaveGame, hr]
  | some room =>
    by_cases hws : room.status = "waiting" ∨ room.status = "finished"
    · right
      left
      refine ⟨room, rfl, hws, ?_⟩
      simp only [handleLeaveGame, hr]
      rw [if_pos hws]
    · by_cases hx : (room.playerX.any fun px => px.id = u.id) = true
      · right
        right
        refine ⟨room, rfl, hws, Or.inl ⟨hx, ?_⟩⟩
        simp only [handleLeaveGame, hr]
        rw [if_neg hws, if_pos hx]
      · by_cases ho : (room.playerO.any fun po => po.id = u.id) = true
        · right
          right
          refine ⟨room, rfl, hws, Or.inr ⟨Bool.eq_false_iff.mpr hx, ho, ?_⟩⟩
          simp only [handleLeaveGame, hr]
          rw [if_neg hws, if_neg hx, if_pos ho]
        · left
          simp only [handleLeaveGame, hr]
          rw [if_neg hws, if_neg hx, if_neg ho]

theorem preserved_turn_of_setRoom {store : GameStore} {rid0 : String}
    {room0 room₂ : GameRoom} {rid : String} {room' : GameRoom}
    (hr : store.rooms.lookup rid0 = some room0)
    (heq : room₂.currentTurn = room0.currentTurn)
    (h : (setRoom store rid0 room₂).rooms.lookup rid = some room') :
    ∃ room, store.rooms.lookup rid = some room ∧
      room'.currentTurn = room.currentTurn := by
  rw [lookup_setRoom] at h
  by_cases hrid : rid = rid0
  · rw [if_pos hrid, hr] at h
    injection h with h
    refine ⟨room0, by rw [hrid]; exact hr, ?_⟩
    rw [← h, heq]
  · rw [if_neg hrid] at h
    exact ⟨room', h, rfl⟩

/-- C3: the turn marker starts at `"X"` on room creation, is flipped by every
accepted move that leaves the game in progress (hence alternates
X, O, X, O, … along any sequence of accepted non-terminal moves), and is
never changed by join, leave, emote or the state read. -/
theorem c3_turn_alternation :
    (∀ (u : User) (b : Int) (id code : String) (t : Nat),
      (newRoom u b id code t).currentTurn = "X") ∧
    (flipTurn "X" = "O" ∧ flipTurn "O" = "X") ∧
    (∀ (store : GameStore) (user : User) (roomId : String) (index : Int)
        (now : Nat) (room room' : GameRoom),
      store.rooms.lookup roomId = some room →
      (handleGameMove store user roomId index now).1 = .ok room' →
      room'.status = "playing" →
      room'.currentTurn = flipTurn room.currentTurn) ∧
    (∀ (store : GameStore) (roomId : String) (room : GameRoom)
        (moves : List (User × Int × Nat)),
      store.rooms.lookup roomId = some room →
      room.currentTurn = "X" →
      validPlayingSeq roomId store moves →
      ∃ room',
        (applyMoves roomId store moves).rooms.lookup roomId = some room' ∧
        room'.currentTurn = turnAfter moves.length) ∧
    (∀ (store : GameStore) (u : User) (code : String) (t : Nat) (rid : String)
        (room' : GameRoom),
      (handleJoinGame store u code t).2.rooms.lookup rid = some room' →
      ∃ room, store.rooms.lookup rid = some room ∧
        room'.currentTurn = room.currentTurn) ∧
    (∀ (store : GameStore) (u : User) (roomId rid : String) (room' : GameRoom),
      (handleLeaveGame store u roomId).rooms.lookup rid = some room' →
      ∃ room, store.rooms.lookup rid = some room ∧
        room'.currentTurn = room.currentTurn) ∧
    (∀ (store : GameStore) (u : User) (roomId e : String) (t : Nat)
        (rid : String) (room' : GameRoom),
      (handleGameEmote store u roomId e t).2.rooms.lookup rid = some room' →
      ∃ room, store.rooms.lookup rid = some room ∧
        room'.currentTurn = room.currentTurn) ∧
    (∀ (store : GameStore) (roomId : String) (t : Nat) (rid : String)
        (room' : GameRoom),
      (handleGameState store roomId t).2.rooms.lookup rid = some room' →
      ∃ room, store.rooms.lookup rid = some room ∧
        room'.currentTurn = room.currentTurn) := by
  refine ⟨fun u b id code t => rfl, ⟨rfl, rfl⟩, ?_, ?_, ?_, ?_, ?_, ?_⟩
  · intro store user roomId index now room room' hl hok hpl
    exact move_ok_playing_flips_turn store user roomId index now room room' hl hok hpl
  · intro store roomId room moves hl hx hv
    obtain ⟨room', hl', ht'⟩ :=
      validPlayingSeq_turn roomId moves store room 0 hl (by rw [hx]; rfl) hv
    rw [Nat.zero_add] at ht'
    exact ⟨room', hl', ht'⟩
  · intro store u code t rid room' h
    rcases handleJoinGame_snd_cases store u code t with heq | ⟨roomId, room, hr, -, -, heq⟩
    · rw [heq] at h
      exact ⟨room', h, rfl⟩
    · rw [heq] at h
      refine preserved_turn_of_setRoom hr ?_ h
      rfl
  · intro store u roomId rid room' h
    rcases handleLeaveGame_cases store u roomId with
      heq | ⟨room, hr, -, heq⟩ | ⟨room, hr, -, hsub⟩
    · rw [heq] at h
      exact ⟨room', h, rfl⟩
    · rw [heq] at h
      replace h : (store.rooms.filter fun p => p.1 ≠ roomId).lookup rid =
        some room' := h
      rw [lookup_filter_key] at h
      by_cases hrid : rid = roomId
      · rw [if_pos hrid] at h
        exact Option.noConfusion h
      · rw [if_neg hrid] at h
        exact ⟨room', h, rfl⟩
    · rcases hsub with ⟨-, heq⟩ | ⟨-, -, heq⟩
      · rw [heq] at h
        refine preserved_turn_of_setRoom hr ?_ h
        rfl
      · rw [heq] at h
        refine preserved_turn_of_setRoom hr ?_ h
        rfl
  · intro store u roomId e t rid room' h
    rcases handleGameEmote_snd_cases store u roomId e t with heq | ⟨room, hr, heq⟩
    · rw [heq] at h
      exact ⟨room', h, rfl⟩
    · rw [heq] at h
      refine preserved_turn_of_setRoom hr ?_ h
      rfl
  · intro store roomId t rid room' h
    rcases handleGameState_snd_cases store roomId t with heq | ⟨room, hr, heq⟩
    · rw [heq] at h
      exact ⟨room', h, rfl⟩
    · rw [heq] at h
      refine preserved_turn_of_setRoom hr ?_ h
      rfl

/-- Witness for C3: in the concrete created-and-joined game, the two accepted
opening moves alternate the turn from X to O and back to X. -/
theorem c3_witness :
    ∃ room',
      (applyMoves "r1" store2 [(userAlice, 4, 12), (userBob, 0, 13)]).rooms.lookup
        "r1" = some room' ∧
      room'.currentTurn = turnAfter 2 :=
  c3_turn_alternation.2.2.2.1 store2 "r1" roomP
    [(userAlice, 4, 12), (userBob, 0, 13)] (by decide) (by decide)
    ⟨⟨roomP1, by decide, by decide⟩, ⟨roomP2, by decide, by decide⟩, trivial⟩

/-! ## Reachability invariant -/

theorem waiting_ne_playing : ("waiting" : String) ≠ "playing" := by decide

theorem waiting_ne_finished : ("waiting" : String) ≠ "finished" := by decide

theorem playing_ne_waiting : ("playing" : String) ≠ "waiting" := by decide

theorem playing_ne_finished : ("playing" : String) ≠ "finished" := by decide

theorem finished_ne_waiting : ("finished" : String) ≠ "waiting" := by decide

theorem finished_ne_playing : ("finished" : String) ≠ "playing" := by decide

theorem roomInvFull_newRoom (u : User) (b : Int) (id code : String) (t : Nat) :
    roomInvFull (newRoom u b id code t) := by
  refine ⟨rfl, Or.inl rfl, fun _ => ⟨rfl, rfl⟩, ?_, ?_, ?_⟩
  · intro h
    exact absurd h waiting_ne_playing
  · intro h
    exact absurd h waiting_ne_finished
  · intro c hc
    have hc' : c ∈ List.replicate
        ((if b = 3 then 3 else if b = 5 then 5 else 3) *
          (if b = 3 then 3 else if b = 5 then 5 else 3)) "" := hc
    exact Or.inl (List.eq_of_mem_replicate hc')

theorem applyWinScores_isSome (w : String) (px po : Option User) :
    (applyWinScores w px po).1.isSome = px.isSome ∧
    (applyWinScores w px po).2.isSome = po.isSome := by
  unfold applyWinScores
  by_cases hw : w = "X"
  · rw [if_pos hw]
    cases px <;> simp [Option.isSome_map']
  · rw [if_neg hw]
    by_cases ho : w = "O"
    · rw [if_pos ho]
      cases po <;> simp [Option.isSome_map']
    · rw [if_neg ho]
      exact ⟨rfl, rfl⟩

theorem roomInvFull_applyMoveOutcome (room : GameRoom) (u : User) (sym : String)
    (idx now : Nat) (hinv : roomInvFull room) (hst : room.status = "playing")
    (hseat : seatOf room u = some sym) :
    roomInvFull (applyMoveOutcome room sym idx now) := by
  obtain ⟨hx, hsts, hwait, hplay, hfin, hcells⟩ := hinv
  have hsym : sym = "X" ∨ sym = "O" := seatOf_eq room u sym hseat
  have hcells' : ∀ c ∈ room.board.set idx sym, c = "" ∨ c = "X" ∨ c = "O" := by
    intro c hc
    rcases List.mem_or_eq_of_mem_set hc with hc' | rfl
    · exact hcells c hc'
    · rcases hsym with rfl | rfl
      · exact Or.inr (Or.inl rfl)
      · exact Or.inr (Or.inr rfl)
  cases hw : checkWinner (room.board.set idx sym) room.boardSize with
  | some p =>
    obtain ⟨w, line⟩ := p
    obtain ⟨hwne, hwmem⟩ := checkWinner_mark _ _ _ _ hw
    have hwXO : w = "X" ∨ w = "O" := by
      rcases hcells' w hwmem with h | h | h
      · exact absurd h hwne
      · exact Or.inl h
      · exact Or.inr h
    simp only [applyMoveOutcome, hw]
    refine ⟨?_, Or.inr (Or.inr rfl), ?_, ?_, ?_, hcells'⟩
    · rw [(applyWinScores_isSome w room.playerX room.playerO).1]
      exact hx
    · intro h
      exact absurd h finished_ne_waiting
    · intro h
      exact absurd h finished_ne_playing
    · intro _
      refine ⟨?_, ?_⟩
      · rw [(applyWinScores_isSome w room.playerX room.playerO).2]
        exact (hplay hst).1
      · rcases hwXO with rfl | rfl
        · exact Or.inl rfl
        · exact Or.inr (Or.inl rfl)
  | none =>
    by_cases hd : checkDraw (room.board.set idx sym) = true
    · simp only [applyMoveOutcome, hw, hd, if_true]
      refine ⟨?_, Or.inr (Or.inr rfl), ?_, ?_, ?_, hcells'⟩
      · rw [Option.isSome_map']
        exact hx
      · intro h
        exact absurd h finished_ne_waiting
      · intro h
        exact absurd h finished_ne_playing
      · intro _
        refine ⟨?_, Or.inr (Or.inr rfl)⟩
        rw [Option.isSome_map']
        exact (hplay hst).1
    · simp only [applyMoveOutcome, hw, hd, if_false]
      refine ⟨hx, Or.inr (Or.inl hst), ?_, ?_, ?_, hcells'⟩
      · intro h
        rw [hst] at h
        exact absurd h playing_ne_waiting
      · intro _
        exact hplay hst
      · intro h
        rw [hst] at h
        exact absurd h playing_ne_finished

theorem storeInv_setRoom {store : GameStore} {rid : String} {room₂ : GameRoom}
    (h : storeInv store) (h₂ : roomInvFull room₂) :
    storeInv (setRoom store rid room₂) := by
  intro p hp
  rcases mem_setRoom hp with hv | hp'
  · rw [hv]
    exact h₂
  · exact h p hp'

theorem storeInv_create (store : GameStore) (u : User) (b : Int)
    (id code : String) (t : Nat) (h : storeInv store) :
    storeInv (handleCreateGame store u b id code t).2 := by
  intro p hp
  replace hp : p = ((newRoom u b id code t).id, newRoom u b id code t) ∨
      p ∈ store.rooms := List.mem_cons.mp hp
  rcases hp with rfl | hp'
  · exact roomInvFull_newRoom u b id code t
  · exact h p hp'

theorem storeInv_join (store : GameStore) (u : User) (code : String) (t : Nat)
    (h : storeInv store) : storeInv (handleJoinGame store u code t).2 := by
  rcases handleJoinGame_snd_cases store u code t with
    heq | ⟨roomId, room, hr, hnone, -, heq⟩
  · rw [heq]
    exact h
  · rw [heq]
    refine storeInv_setRoom h ?_
    obtain ⟨hx, hsts, hwait, hplay, hfin, hcells⟩ := h (roomId, room) (lookup_mem hr)
    refine ⟨hx, Or.inr (Or.inl rfl), ?_, ?_, ?_, hcells⟩
    · intro hw
      exact absurd hw playing_ne_waiting
    · intro _
      refine ⟨rfl, ?_⟩
      rcases hsts with hw | hp | hf
      · exact (hwait hw).2
      · exact absurd (hplay hp).1 (by rw [hnone]; decide)
      · exact absurd (hfin hf).1 (by rw [hnone]; decide)
    · intro hf
      exact absurd hf playing_ne_finished

theorem storeInv_state (store : GameStore) (rid : String) (t : Nat)
    (h : storeInv store) : storeInv (handleGameState store rid t).2 := by
  rcases handleGameState_snd_cases store rid t with heq | ⟨room, hr, heq⟩
  · rw [heq]
    exact h
  · rw [heq]
    refine storeInv_setRoom h ?_
    obtain ⟨hx, hsts, hwait, hplay, hfin, hcells⟩ := h (rid, room) (lookup_mem hr)
    exact ⟨hx, hsts, hwait, hplay, hfin, hcells⟩

theorem storeInv_emote (store : GameStore) (u : User) (rid e : String) (t : Nat)
    (h : storeInv store) : storeInv (handleGameEmote store u rid e t).2 := by
  rcases handleGameEmote_snd_cases store u rid e t with heq | ⟨room, hr, heq⟩
  · rw [heq]
    exact h
  · rw [heq]
    refine storeInv_setRoom h ?_
    obtain ⟨hx, hsts, hwait, hplay, hfin, hcells⟩ := h (rid, room) (lookup_mem hr)
    exact ⟨hx, hsts, hwait, hplay, hfin, hcells⟩

theorem storeInv_leave (store : GameStore) (u : User) (rid : String)
    (h : storeInv store) : storeInv (handleLeaveGame store u rid) := by
  rcases handleLeaveGame_cases store u rid with
    heq | ⟨room, hr, -, heq⟩ | ⟨room, hr, hnws, hsub⟩
  · rw [heq]
    exact h
  · rw [heq]
    intro p hp
    replace hp : p ∈ store.rooms.filter fun q => q.1 ≠ rid := hp
    exact h p (List.mem_filter.mp hp).1
  · obtain ⟨hx, hsts, hwait, hplay, hfin, hcells⟩ := h (rid, room) (lookup_mem hr)
    have hply : room.status = "playing" := by
      rcases hsts with hw | hp | hf
      · exact absurd (Or.inl hw) hnws
      · exact hp
      · exact absurd (Or.inr hf) hnws
    have hO : room.playerO.isSome = true := (hplay hply).1
    rcases hsub with ⟨-, heq⟩ | ⟨-, -, heq⟩
    · rw [heq]
      refine storeInv_setRoom h ?_
      refine ⟨?_, Or.inr (Or.inr rfl), ?_, ?_, ?_, hcells⟩
      · rw [Option.isSome_map']
        exact hx
      · intro hw
        exact absurd hw finished_ne_waiting
      · intro hp
        exact absurd hp finished_ne_playing
      · intro _
        refine ⟨?_, Or.inr (Or.inl rfl)⟩
        rw [Option.isSome_map']
        exact hO
    · rw [heq]
      refine storeInv_setRoom h ?_
      refine ⟨?_, Or.inr (Or.inr rfl), ?_, ?_, ?_, hcells⟩
      · rw [Option.isSome_map']
        exact hx
      · intro hw
        exact absurd hw finished_ne_waiting
      · intro hp
        exact absurd hp finished_ne_playing
      · intro _
        refine ⟨?_, Or.inl rfl⟩
        rw [Option.isSome_map']
        exact hO

theorem storeInv_move (store : GameStore) (u : User) (rid : String) (i : Int)
    (t : Nat) (h : storeInv store) : storeInv (handleGameMove store u rid i t).2 := by
  rcases handleGameMove_result_cases store u rid i t with
    ⟨-, heq⟩ | ⟨room, hr, hcase⟩
  · rw [heq]
    exact h
  · rcases hcase with ⟨-, heq⟩ | ⟨-, -, heq⟩ | ⟨sym, hst, hseat, hsub⟩
    · rw [heq]
      exact h
    · rw [heq]
      exact h
    · rcases hsub with ⟨-, heq⟩ | ⟨-, -, heq⟩ | ⟨-, -, -, -, heq⟩ | ⟨-, -, -, -, heq⟩
      · rw [heq]
        exact h
      · rw [heq]
        exact h
      · rw [heq]
        exact h
      · rw [heq]
        exact storeInv_setRoom h
          (roomInvFull_applyMoveOutcome room u sym i.toNat t
            (h (rid, room) (lookup_mem hr)) hst hseat)

theorem reachable_storeInv (s : GameStore) (h : Reachable s) : storeInv s := by
  induction h with
  | init =>
    intro p hp
    exact absurd hp (List.not_mem_nil p)
  | create s u b id code t _ ih => exact storeInv_create s u b id code t ih
  | join s u code t _ ih => exact storeInv_join s u code t ih
  | stateRead s rid t _ ih => exact storeInv_state s rid t ih
  | move s u rid i t _ ih => exact storeInv_move s u rid i t ih
  | leave s u rid _ ih => exact storeInv_leave s u rid ih
  | emote s u rid e t _ ih => exact storeInv_emote s u rid e t ih

/-- C4: in every store reachable through the handlers, a `"waiting"` room has
no player-O, a `"playing"` room has both players and no winner yet, and a
`"finished"` room has its winner set to `"X"`, `"O"` or `"draw"`. -/
theorem c4_status_invariants (s : GameStore) (h : Reachable s) :
    ∀ p ∈ s.rooms,
      (p.2.status = "waiting" → p.2.playerO = none) ∧
      (p.2.status = "playing" →
        p.2.playerX.isSome ∧ p.2.playerO.isSome ∧ p.2.winner = "") ∧
      (p.2.status = "finished" →
        p.2.winner = "X" ∨ p.2.winner = "O" ∨ p.2.winner = "draw") := by
  intro p hp
  obtain ⟨hx, -, hwait, hplay, hfin, -⟩ := reachable_storeInv s h p hp
  exact ⟨fun hw => (hwait hw).1,
    fun hpl => ⟨hx, (hplay hpl).1, (hplay hpl).2⟩,
    fun hf => (hfin hf).2⟩

/-- Witness for C4: the reachable playing room of `store2` (created by alice,
joined by bob) satisfies all three status implications. -/
theorem c4_witness :
    (roomP.status = "waiting" → roomP.playerO = none) ∧
    (roomP.status = "playing" →
      roomP.playerX.isSome ∧ roomP.playerO.isSome ∧ roomP.winner = "") ∧
    (roomP.status = "finished" →
      roomP.winner = "X" ∨ roomP.winner = "O" ∨ roomP.winner = "draw") :=
  c4_status_invariants store2
    (Reachable.join store1 userBob "ABC234" 11
      (Reachable.create store0 userAlice 3 "r1" "ABC234" 10 Reachable.init))
    ("r1", roomP) (by decide)

/-- C5: draw detection is "no cell empty", and the move handler consults it
only after winner evaluation: a final move that completes a winning line is
reported as that mark's win even on a full board, while a full board without
a winner finishes the game as `"draw"` and increments both players' draw
counters by one. -/
theorem c5_draw_detection :
    (∀ board : List String, checkDraw board = true ↔ ∀ c ∈ board, c ≠ "") ∧
    (∀ (store : GameStore) (user : User) (roomId : String) (index : Int)
        (now : Nat) (room room' : GameRoom) (sym : String),
      store.rooms.lookup roomId = some room →
      seatOf room user = some sym →
      (handleGameMove store user roomId index now).1 = .ok room' →
      (∀ c ∈ room.board, c = "" ∨ c = "X" ∨ c = "O") →
      (∀ m line,
        checkWinner (room.board.set index.toNat sym) room.boardSize =
          some (m, line) →
        room'.winner = m ∧ m ≠ "draw" ∧ room'.status = "finished") ∧
      (checkWinner (room.board.set index.toNat sym) room.boardSize = none →
        checkDraw (room.board.set index.toNat sym) = true →
        room'.winner = "draw" ∧ room'.status = "finished" ∧
        (room'.playerX.map fun v => v.scores.draws) =
          (room.playerX.map fun v => v.scores.draws + 1) ∧
        (room'.playerO.map fun v => v.scores.draws) =
          (room.playerO.map fun v => v.scores.draws + 1))) := by
  constructor
  · intro board
    simp [checkDraw, List.all_eq_true]
  · intro store user roomId index now room room' sym hroom hseat hok hcells
    obtain ⟨room0, hl0, hst, sym0, hseat0, hturn, h0, hlt, hcell, hr⟩ :=
      (handleGameMove_ok_iff store user roomId index now room').mp hok
    rw [hroom] at hl0
    injection hl0 with hl0
    subst hl0
    rw [hseat] at hseat0
    injection hseat0 with hseat0
    subst hseat0
    subst hr
    constructor
    · intro m line hw
      obtain ⟨hmne, hmmem⟩ := checkWinner_mark _ _ _ _ hw
      have hmXO : m = "X" ∨ m = "O" := by
        rcases List.mem_or_eq_of_mem_set hmmem with hc' | rfl
        · rcases hcells m hc' with h | h | h
          · exact absurd h hmne
          · exact Or.inl h
          · exact Or.inr h
        · exact seatOf_eq room user m hseat
      refine ⟨?_, ?_, ?_⟩
      · simp only [applyMoveOutcome, hw]
      · rcases hmXO with rfl | rfl
        · decide
        · decide
      · simp only [applyMoveOutcome, hw]
    · intro hw hd
      simp only [applyMoveOutcome, hw, hd, if_true]
      refine ⟨trivial, trivial, ?_, ?_⟩
      · cases room.playerX <;> rfl
      · cases room.playerO <;> rfl

/-- Witness for C5: alice's ninth move on the concrete full-board game with
no winning line yields winner `"draw"`, status `"finished"`, and both draw
counters go from 0 to 1. -/
theorem c5_witness :
    roomD9.winner = "draw" ∧ roomD9.status = "finished" ∧
    (roomD9.playerX.map fun v => v.scores.draws) =
      (roomD.playerX.map fun v => v.scores.draws + 1) ∧
    (roomD9.playerO.map fun v => v.scores.draws) =
      (roomD.playerO.map fun v => v.scores.draws + 1) :=
  (c5_draw_detection.2 storeDraw userAlice "r1" 8 28 roomD roomD9 "X"
    (by decide) (by decide) (by decide) (by decide)).2 (by decide) (by decide)

/-- C6: leaving a `"playing"` room forfeits it: when player-O leaves, the
winner becomes `"X"`, the status `"finished"`, player-X gains a win and
player-O a loss (and symmetrically when player-X leaves); the room stays in
the registry. -/
theorem c6_forfeit (store : GameStore) (user : User) (roomId : String)
    (room : GameRoom) (x o : User)
    (hroom : store.rooms.lookup roomId = some room)
    (hstatus : room.status = "playing")
    (hx : room.playerX = some x) (ho : room.playerO = some o)
    (hneq : x.id ≠ o.id) :
    (user.id = o.id →
      ∃ room',
        (handleLeaveGame store user roomId).rooms.lookup roomId = some room' ∧
        room'.winner = "X" ∧ room'.status = "finished" ∧
        (room'.playerX.map fun v => v.scores.wins) = some (x.scores.wins + 1) ∧
        (room'.playerO.map fun v => v.scores.losses) =
          some (o.scores.losses + 1)) ∧
    (user.id = x.id →
      ∃ room',
        (handleLeaveGame store user roomId).rooms.lookup roomId = some room' ∧
        room'.winner = "O" ∧ room'.status = "finished" ∧
        (room'.playerO.map fun v => v.scores.wins) = some (o.scores.wins + 1) ∧
        (room'.playerX.map fun v => v.scores.losses) =
          some (x.scores.losses + 1)) := by
  have hws : ¬ (room.status = "waiting" ∨ room.status = "finished") := by
    rintro (h | h)
    · rw [hstatus] at h
      exact playing_ne_waiting h
    · rw [hstatus] at h
      exact playing_ne_finished h
  constructor
  · intro huser
    have hxany : (room.playerX.any fun px => px.id = user.id) = false := by
      rw [hx, Option.any_some]
      exact decide_eq_false fun h => hneq (h.trans huser)
    have hoany : (room.playerO.any fun po => po.id = user.id) = true := by
      rw [ho, Option.any_some]
      exact decide_eq_true huser.symm
    have heq : handleLeaveGame store user roomId = setRoom store roomId
        { room with winner := "X", status := "finished",
                    playerX := room.playerX.map addWin,
                    playerO := room.playerO.map addLoss } := by
      simp only [handleLeaveGame, hroom]
      rw [if_neg hws, if_neg (fun h => Bool.false_ne_true (hxany ▸ h)),
        if_pos hoany]
    rw [heq, lookup_setRoom, if_pos rfl, hroom]
    refine ⟨_, rfl, rfl, rfl, ?_, ?_⟩
    · rw [hx]
      rfl
    · rw [ho]
      rfl
  · intro huser
    have hxany : (room.playerX.any fun px => px.id = user.id) = true := by
      rw [hx, Option.any_some]
      exact decide_eq_true huser.symm
    have heq : handleLeaveGame store user roomId = setRoom store roomId
        { room with winner := "O", status := "finished",
                    playerO := room.playerO.map addWin,
                    playerX := room.playerX.map addLoss } := by
      simp only [handleLeaveGame, hroom]
      rw [if_neg hws, if_pos hxany]
    rw [heq, lookup_setRoom, if_pos rfl, hroom]
    refine ⟨_, rfl, rfl, rfl, ?_, ?_⟩
    · rw [ho]
      rfl
    · rw [hx]
      rfl

/-- Witness for C6: bob (player-O) leaving the concrete playing room of
`store2` hands alice the win and bob the loss, with the room retained. -/
theorem c6_witness :
    ∃ room',
      (handleLeaveGame store2 userBob "r1").rooms.lookup "r1" = some room' ∧
      room'.winner = "X" ∧ room'.status = "finished" ∧
      (room'.playerX.map fun v => v.scores.wins) =
        some (userAlice.scores.wins + 1) ∧
      (room'.playerO.map fun v => v.scores.losses) =
        some (userBob.scores.losses + 1) :=
  (c6_forfeit store2 userBob "r1" roomP userAlice userBob (by decide) (by decide)
    (by decide) (by decide) (by decide)).1 rfl

theorem preserved_field_of_setRoom {α : Type} (f : GameRoom → α)
    {store : GameStore} {rid0 : String} {room0 room₂ : GameRoom} {rid : String}
    {room' : GameRoom}
    (hr : store.rooms.lookup rid0 = some room0)
    (heq : f room₂ = f room0)
    (h : (setRoom store rid0 room₂).rooms.lookup rid = some room') :
    ∃ room, store.rooms.lookup rid = some room ∧ f room' = f room := by
  rw [lookup_setRoom] at h
  by_cases hrid : rid = rid0
  · rw [if_pos hrid, hr] at h
    injection h with h
    refine ⟨room0, by rw [hrid]; exact hr, ?_⟩
    rw [← h, heq]
  · rw [if_neg hrid] at h
    exact ⟨room', h, rfl⟩

/-- C7: joining with the code of a room where the caller is already seated
returns the room and the store completely unchanged, and joining a room whose
player-O seat is held by a different user fails with `Conflict` and changes
nothing. -/
theorem c7_join_idempotent (store : GameStore) (user : User)
    (codeRaw roomId : String) (room : GameRoom) (now : Nat)
    (hcode : store.codes.lookup (normalizeCode codeRaw) = some roomId)
    (hroom : store.rooms.lookup roomId = some room) :
    (((∃ px, room.playerX = some px ∧ px.id = user.id) ∨
      (∃ po, room.playerO = some po ∧ po.id = user.id)) →
      handleJoinGame store user codeRaw now = (.ok room, store)) ∧
    (∀ po, room.playerO = some po → po.id ≠ user.id →
      (∀ px, room.playerX = some px → px.id ≠ user.id) →
      handleJoinGame store user codeRaw now = (.error .conflict, store)) := by
  constructor
  · intro hseated
    simp only [handleJoinGame, hcode, hroom]
    by_cases hxany : (room.playerX.any fun px => px.id = user.id) = true
    · rw [if_pos hxany]
    · rw [if_neg hxany]
      have hoany : (room.playerO.any fun po => po.id = user.id) = true := by
        rcases hseated with ⟨px, hpx, hid⟩ | ⟨po, hpo, hid⟩
        · exact absurd (by rw [hpx, Option.any_some]; exact decide_eq_true hid)
            hxany
        · rw [hpo, Option.any_some]
          exact decide_eq_true hid
      rw [if_pos hoany]
  · intro po hpo hpne hx
    have hxany : (room.playerX.any fun px => px.id = user.id) = false := by
      cases hpx : room.playerX with
      | none => rw [Option.any_none]
      | some px =>
        rw [Option.any_some]
        exact decide_eq_false (hx px hpx)
    have hoany : (room.playerO.any fun q => q.id = user.id) = false := by
      rw [hpo, Option.any_some]
      exact decide_eq_false hpne
    have hsome : room.playerO.isSome = true := by
      rw [hpo]
      rfl
    simp only [handleJoinGame, hcode, hroom]
    rw [if_neg (fun h => Bool.false_ne_true (hxany ▸ h)),
      if_neg (fun h => Bool.false_ne_true (hoany ▸ h)), if_pos hsome]

/-- Witness for C7: alice re-joining her own live room with its code returns
the room and store unchanged. -/
theorem c7_witness :
    handleJoinGame store2 userAlice "ABC234" 99 = (.ok roomP, store2) :=
  (c7_join_idempotent store2 userAlice "ABC234" "r1" roomP 99
    (by decide) (by decide)).1 (Or.inl ⟨userAlice, by decide, rfl⟩)

/-- Counterexample for C8: two state-changing operations do not refresh
`updated_at`.  Bob's forfeit-leave turns the concrete room from
`("playing", updated_at 11)` into `("finished", winner "X")` with
`updated_at` still 11, and the read-path emote clearing flips `show_emote`
from `true` to `false` with `updated_at` still 20. -/
theorem c8_counterexample :
    ((handleLeaveGame store2 userBob "r1").rooms.lookup "r1").map
        (fun r => (r.status, r.winner, r.updatedAt)) =
      some ("finished", "X", 11) ∧
    (store2.rooms.lookup "r1").map (fun r => (r.status, r.updatedAt)) =
      some ("playing", 11) ∧
    (((handleGameState storeE "r1" 99).2.rooms.lookup "r1").map
        (fun r => (r.showEmote, r.updatedAt)) = some (false, 20)) ∧
    ((storeE.rooms.lookup "r1").map (fun r => (r.showEmote, r.updatedAt)) =
      some (true, 20)) := by
  decide

/-- C8 (amended): join (when it seats a player), move and emote set
`updated_at` to the operation's current time, while leave (including the
state-changing forfeit path) and the read-path emote clearing leave every
room's `updated_at` unchanged. -/
theorem c8_updated_at_amended :
    (∀ (store : GameStore) (u : User) (c : String) (now : Nat) (rid : String)
        (room : GameRoom),
      store.codes.lookup (normalizeCode c) = some rid →
      store.rooms.lookup rid = some room →
      (∀ px, room.playerX = some px → px.id ≠ u.id) →
      room.playerO = none →
      ∃ room', (handleJoinGame store u c now).1 = .ok room' ∧
        room'.updatedAt = now) ∧
    (∀ (store : GameStore) (u : User) (rid : String) (i : Int) (now : Nat)
        (room' : GameRoom),
      (handleGameMove store u rid i now).1 = .ok room' →
      room'.updatedAt = now) ∧
    (∀ (store : GameStore) (u : User) (rid e : String) (now : Nat)
        (room' : GameRoom),
      (handleGameEmote store u rid e now).1 = .ok room' →
      room'.updatedAt = now) ∧
    (∀ (store : GameStore) (u : User) (rid rid' : String)
        (room room' : GameRoom),
      store.rooms.lookup rid' = some room →
      (handleLeaveGame store u rid).rooms.lookup rid' = some room' →
      room'.updatedAt = room.updatedAt) ∧
    (∀ (store : GameStore) (rid : String) (t : Nat) (rid' : String)
        (room room' : GameRoom),
      store.rooms.lookup rid' = some room →
      (handleGameState store rid t).2.rooms.lookup rid' = some room' →
      room'.updatedAt = room.updatedAt) := by
  refine ⟨?_, ?_, ?_, ?_, ?_⟩
  · intro store u c now rid room hcode hroom hx hnone
    have hxany : (room.playerX.any fun px => px.id = u.id) = false := by
      cases hpx : room.playerX with
      | none => rw [Option.any_none]
      | some px =>
        rw [Option.any_some]
        exact decide_eq_false (hx px hpx)
    have hoany : (room.playerO.any fun po => po.id = u.id) = false := by
      rw [hnone, Option.any_none]
    have hsome : room.playerO.isSome = false := by
      rw [hnone]
      rfl
    simp only [handleJoinGame, hcode, hroom]
    rw [if_neg (fun h => Bool.false_ne_true (hxany ▸ h)),
      if_neg (fun h => Bool.false_ne_true (hoany ▸ h)),
      if_neg (fun h => Bool.false_ne_true (hsome ▸ h))]
    exact ⟨_, rfl, rfl⟩
  · intro store u rid i now room' h
    obtain ⟨room, -, -, sym, -, -, -, -, -, hr⟩ :=
      (handleGameMove_ok_iff store u rid i now room').mp h
    subst hr
    cases hw : checkWinner (room.board.set i.toNat sym) room.boardSize with
    | some p =>
      obtain ⟨w, line⟩ := p
      simp only [applyMoveOutcome, hw]
    | none =>
      by_cases hd : checkDraw (room.board.set i.toNat sym) = true
      · simp only [applyMoveOutcome, hw, hd, if_true]
      · simp only [applyMoveOutcome, hw, hd, if_false]
        rfl
  · intro store u rid e now room' h
    cases hr : store.rooms.lookup rid with
    | none => simp [handleGameEmote, hr] at h
    | some room =>
      simp only [handleGameEmote, hr] at h
      by_cases hin : (room.playerX.any fun px => px.id = u.id) = true ∨
          (room.playerO.any fun po => po.id = u.id) = true
      · rw [if_pos hin] at h
        injection h with h
        rw [← h]
      · rw [if_neg hin] at h
        exact Except.noConfusion h
  · intro store u rid rid' room room' hpre h
    have key : ∃ room0, store.rooms.lookup rid' = some room0 ∧
        room'.updatedAt = room0.updatedAt := by
      rcases handleLeaveGame_cases store u rid with
        heq | ⟨roomL, hrL, -, heq⟩ | ⟨roomL, hrL, -, hsub⟩
      · rw [heq] at h
        exact ⟨room', h, rfl⟩
      · rw [heq] at h
        replace h : (store.rooms.filter fun p => p.1 ≠ rid).lookup rid' =
          some room' := h
        rw [lookup_filter_key] at h
        by_cases hrid : rid' = rid
        · rw [if_pos hrid] at h
          exact Option.noConfusion h
        · rw [if_neg hrid] at h
          exact ⟨room', h, rfl⟩
      · rcases hsub with ⟨-, heq⟩ | ⟨-, -, heq⟩
        · rw [heq] at h
          refine preserved_field_of_setRoom (fun r => r.updatedAt) hrL ?_ h
          rfl
        · rw [heq] at h
          refine preserved_field_of_setRoom (fun r => r.updatedAt) hrL ?_ h
          rfl
    obtain ⟨room0, h0, hupd⟩ := key
    rw [hpre] at h0
    injection h0 with h0
    rw [hupd, h0]
  · intro store rid t rid' room room' hpre h
    have key : ∃ room0, store.rooms.lookup rid' = some room0 ∧
        room'.updatedAt = room0.updatedAt := by
      rcases handleGameState_snd_cases store rid t with heq | ⟨roomL, hrL, heq⟩
      · rw [heq] at h
        exact ⟨room', h, rfl⟩
      · rw [heq] at h
        refine preserved_field_of_setRoom (fun r => r.updatedAt) hrL ?_ h
        rfl
    obtain ⟨room0, h0, hupd⟩ := key
    rw [hpre] at h0
    injection h0 with h0
    rw [hupd, h0]

/-- Witness for C8 (amended): alice's concrete accepted move at time 12 sets
the room's `updated_at` to 12. -/
theorem c8_witness : roomP1.updatedAt = 12 :=
  c8_updated_at_amended.2.1 store2 userAlice "r1" 4 12 roomP1 (by decide)

theorem generateGameCode_chars (bytes : List Nat) :
    ∀ c ∈ (generateGameCode bytes).data, c ∈ codeChars := by
  intro c hc
  obtain ⟨b, -, hb⟩ := List.mem_map.mp hc
  have hlt : b % codeChars.length < codeChars.length :=
    Nat.mod_lt b (by decide)
  rw [← hb, List.getD_eq_getElem codeChars 'A' hlt]
  exact codeChars.getElem_mem hlt

/-- C9: join normalises the supplied code — whitespace trimmed, letters
upper-cased — before consulting the code index, so the join outcome depends
only on the normalised code and any case variant or whitespace-padded form of
a live code resolves the room rather than failing `NotFound`; the generated
codes are fixed points of the normalisation (all characters drawn from the
canonical upper-case alphabet), and create stores exactly that code. -/
theorem c9_code_normalization :
    (∀ bytes : List Nat,
      (∀ c ∈ (generateGameCode bytes).data, c ∈ codeChars) ∧
      normalizeCode (generateGameCode bytes) = generateGameCode bytes) ∧
    (∀ (store : GameStore) (u : User) (s s' : String) (now : Nat),
      normalizeCode s = normalizeCode s' →
      handleJoinGame store u s now = handleJoinGame store u s' now) ∧
    (∀ (store : GameStore) (u : User) (s : String) (now : Nat)
        (rid : String) (room : GameRoom),
      store.codes.lookup (normalizeCode s) = some rid →
      store.rooms.lookup rid = some room →
      (handleJoinGame store u s now).1 ≠ .error .notFound) ∧
    (∀ (store : GameStore) (u : User) (b : Int) (id code : String) (t : Nat),
      (handleCreateGame store u b id code t).2.codes.lookup code = some id ∧
      (handleCreateGame store u b id code t).1.code = code) ∧
    normalizeCode "  abc234 " = "ABC234" := by
  have hchars : ∀ bytes : List Nat, ∀ c ∈ (generateGameCode bytes).data,
      c ∈ codeChars := generateGameCode_chars
  refine ⟨?_, ?_, ?_, ?_, by decide⟩
  · intro bytes
    refine ⟨hchars bytes, ?_⟩
    have hnospace : ∀ c ∈ (generateGameCode bytes).data, isSpaceChar c = false := by
      intro c hc
      have : ∀ c ∈ codeChars, isSpaceChar c = false := by decide
      exact this c (hchars bytes c hc)
    have hupper : ∀ c ∈ (generateGameCode bytes).data, c.toUpper = c := by
      intro c hc
      have : ∀ c ∈ codeChars, c.toUpper = c := by decide
      exact this c (hchars bytes c hc)
    show String.mk ((trimSpaceChars (generateGameCode bytes).data).map Char.toUpper) =
      generateGameCode bytes
    rw [trimSpaceChars_eq_self hnospace, map_eq_self_of_fixed _ _ hupper]
  · intro store u s s' now h
    simp only [handleJoinGame, h]
  · intro store u s now rid room hcode hroom
    simp only [handleJoinGame, hcode, hroom]
    by_cases hxany : (room.playerX.any fun px => px.id = u.id) = true
    · rw [if_pos hxany]
      intro h
      injection h
    · rw [if_neg hxany]
      by_cases hoany : (room.playerO.any fun po => po.id = u.id) = true
      · rw [if_pos hoany]
        intro h
        injection h
      · rw [if_neg hoany]
        by_cases hsome : room.playerO.isSome = true
        · rw [if_pos hsome]
          intro h
          injection h with h
          exact ApiError.noConfusion h
        · rw [if_neg hsome]
          intro h
          injection h
  · intro store u b id code t
    exact ⟨lookup_cons_self code id store.codes, rfl⟩

/-- Witness for C9: a lower-case, whitespace-padded variant of the live code
`"ABC234"` still resolves bob's join of alice's room. -/
theorem c9_witness :
    (handleJoinGame store1 userBob "  abc234 " 11).1 ≠ .error .notFound :=
  c9_code_normalization.2.2.1 store1 userBob "  abc234 " 11 "r1" roomW
    (by decide) (by decide)

theorem applyWinScores_frame (w : String) (px po : Option User) :
    ((applyWinScores w px po).1.map fun v => (v.id, v.username, v.createdAt)) =
      (px.map fun v => (v.id, v.username, v.createdAt)) ∧
    ((applyWinScores w px po).2.map fun v => (v.id, v.username, v.createdAt)) =
      (po.map fun v => (v.id, v.username, v.createdAt)) := by
  unfold applyWinScores
  by_cases hw : w = "X"
  · rw [if_pos hw]
    cases px <;> cases po <;> exact ⟨rfl, rfl⟩
  · rw [if_neg hw]
    by_cases ho : w = "O"
    · rw [if_pos ho]
      cases px <;> cases po <;> exact ⟨rfl, rfl⟩
    · rw [if_neg ho]
      exact ⟨rfl, rfl⟩

/-- C10: an accepted move that finishes the game (win or draw) leaves the
turn marker untouched — it still holds the mark of the mover — and changes
nothing besides board, last-move, updated-at, winner, winning-line, status
and the players' score counters: id, code, board size, emote state, creation
time and both players' identities are all preserved. -/
theorem c10_terminal_move_frame (store : GameStore) (user : User)
    (roomId : String) (index : Int) (now : Nat) (room room' : GameRoom)
    (hroom : store.rooms.lookup roomId = some room)
    (hok : (handleGameMove store user roomId index now).1 = .ok room')
    (hfin : room'.status = "finished") :
    room'.currentTurn = room.currentTurn ∧
    seatOf room user = some room.currentTurn ∧
    room'.id = room.id ∧ room'.code = room.code ∧
    room'.boardSize = room.boardSize ∧
    room'.showEmote = room.showEmote ∧ room'.emoteType = room.emoteType ∧
    room'.emoteBy = room.emoteBy ∧ room'.emoteAt = room.emoteAt ∧
    room'.createdAt = room.createdAt ∧
    (room'.playerX.map fun v => (v.id, v.username, v.createdAt)) =
      (room.playerX.map fun v => (v.id, v.username, v.createdAt)) ∧
    (room'.playerO.map fun v => (v.id, v.username, v.createdAt)) =
      (room.playerO.map fun v => (v.id, v.username, v.createdAt)) := by
  obtain ⟨room0, hl0, hst, sym, hseat, hturn, -, -, -, hr⟩ :=
    (handleGameMove_ok_iff store user roomId index now room').mp hok
  rw [hroom] at hl0
  injection hl0 with hl0
  subst hl0
  have hseat' : seatOf room user = some room.currentTurn := by
    rw [hseat, hturn]
  subst hr
  cases hw : checkWinner (room.board.set index.toNat sym) room.boardSize with
  | some p =>
    obtain ⟨w, line⟩ := p
    simp only [applyMoveOutcome, hw]
    exact ⟨trivial, hseat', trivial, trivial, trivial, trivial, trivial,
      trivial, trivial, trivial,
      (applyWinScores_frame w room.playerX room.playerO).1,
      (applyWinScores_frame w room.playerX room.playerO).2⟩
  | none =>
    by_cases hd : checkDraw (room.board.set index.toNat sym) = true
    · simp only [applyMoveOutcome, hw, hd, if_true]
      refine ⟨trivial, hseat', trivial, trivial, trivial, trivial, trivial,
        trivial, trivial, trivial, ?_, ?_⟩
      · cases room.playerX <;> rfl
      · cases room.playerO <;> rfl
    · exfalso
      simp only [applyMoveOutcome, hw, hd, if_false] at hfin
      have hfin' : room.status = "finished" := hfin
      rw [hst] at hfin'
      exact playing_ne_finished hfin'

/-- Witness for C10: alice's winning final move of scenario A (completing the
middle column) keeps the turn on `"X"` and preserves all frame fields of the
concrete room. -/
theorem c10_witness :
    roomWin.currentTurn = roomW4.currentTurn ∧
    seatOf roomW4 userAlice = some roomW4.currentTurn ∧
    roomWin.id = roomW4.id ∧ roomWin.code = roomW4.code ∧
    roomWin.boardSize = roomW4.boardSize ∧
    roomWin.showEmote = roomW4.showEmote ∧ roomWin.emoteType = roomW4.emoteType ∧
    roomWin.emoteBy = roomW4.emoteBy ∧ roomWin.emoteAt = roomW4.emoteAt ∧
    roomWin.createdAt = roomW4.createdAt ∧
    (roomWin.playerX.map fun v => (v.id, v.username, v.createdAt)) =
      (roomW4.playerX.map fun v => (v.id, v.username, v.createdAt)) ∧
    (roomWin.playerO.map fun v => (v.id, v.username, v.createdAt)) =
      (roomW4.playerO.map fun v => (v.id, v.username, v.createdAt)) :=
  c10_terminal_move_frame storeWin userAlice "r1" 7 30 roomW4 roomWin
    (by decide) (by decide) (by decide)

/-- C2: `checkWinner` returns the first winning combination in the
enumeration order of `generateWinningConditions` (rows, then columns, then
top-left→bottom-right diagonals, then top-right→bottom-left diagonals; run
length 3 for size 3 and 4 for size 5), all of whose cells are non-empty and
identical, and returns no winner when no combination qualifies. -/
theorem c2_checkWinner_first_combination (board : List String) (size : Nat) :
    (winLength 3 = 3 ∧ winLength 5 = 4) ∧
    (generateWinningConditions 3 =
      [[0, 1, 2], [3, 4, 5], [6, 7, 8],
       [0, 3, 6], [1, 4, 7], [2, 5, 8],
       [0, 4, 8], [2, 4, 6]]) ∧
    (generateWinningConditions 5 =
      [[0, 1, 2, 3], [1, 2, 3, 4], [5, 6, 7, 8], [6, 7, 8, 9],
       [10, 11, 12, 13], [11, 12, 13, 14], [15, 16, 17, 18], [16, 17, 18, 19],
       [20, 21, 22, 23], [21, 22, 23, 24],
       [0, 5, 10, 15], [5, 10, 15, 20], [1, 6, 11, 16], [6, 11, 16, 21],
       [2, 7, 12, 17], [7, 12, 17, 22], [3, 8, 13, 18], [8, 13, 18, 23],
       [4, 9, 14, 19], [9, 14, 19, 24],
       [0, 6, 12, 18], [1, 7, 13, 19], [5, 11, 17, 23], [6, 12, 18, 24],
       [3, 7, 11, 15], [4, 8, 12, 16], [8, 12, 16, 20], [9, 13, 17, 21]]) ∧
    (checkWinner board size = none ↔
      ∀ cond ∈ generateWinningConditions size, ¬ winsAllSame board cond) ∧
    (∀ m line, checkWinner board size = some (m, line) →
      m ≠ "" ∧ (∀ i ∈ line, cellAt board i = m) ∧
        ∃ pre post, generateWinningConditions size = pre ++ line :: post ∧
          ∀ cond ∈ pre, ¬ winsAllSame board cond) := by
  refine ⟨⟨by decide, by decide⟩, by decide, by decide, ?_, ?_⟩
  · rw [checkWinner, findWinningCondition_eq_none_iff]
    constructor
    · intro h cond hc hw
      have := (conditionWins_iff board cond).mpr hw
      rw [h cond hc] at this
      cases this
    · intro h cond hc
      cases hw : conditionWins board cond with
      | true => exact absurd ((conditionWins_iff board cond).mp hw) (h cond hc)
      | false => rfl
  · intro m line h
    obtain ⟨hne, hmem⟩ := checkWinner_mark board size m line h
    obtain ⟨hw, hm, pre, post, heq, hpre⟩ :=
      findWinningCondition_eq_some board (generateWinningConditions size) m line h
    obtain ⟨m', hm', hne', hall⟩ := (conditionWins_iff board line).mp hw
    have hmm' : m = m' := by
      cases line with
      | nil => exact absurd rfl hne'
      | cons c0 rest =>
        rw [List.headD_cons] at hm
        rw [hm, hall c0 (List.mem_cons_self c0 rest)]
    refine ⟨hne, ?_, pre, post, heq, ?_⟩
    · intro i hi
      rw [hall i hi, ← hmm']
    · intro cond hc hws
      have := (conditionWins_iff board cond).mpr hws
      rw [hpre cond hc] at this
      cases this

/-- Witness for C2 at a concrete board: the top row of
`["X","X","X","O","O","","","",""]` is reported, it is the first enumerated
combination, and its mark is `"X"`. -/
theorem c2_witness :
    ("X" : String) ≠ "" ∧
    (∀ i ∈ [0, 1, 2], cellAt ["X", "X", "X", "O", "O", "", "", "", ""] i = "X") ∧
    ∃ pre post,
      generateWinningConditions 3 = pre ++ [0, 1, 2] :: post ∧
        ∀ cond ∈ pre, ¬ winsAllSame ["X", "X", "X", "O", "O", "", "", "", ""] cond :=
  (c2_checkWinner_first_combination
    ["X", "X", "X", "O", "O", "", "", "", ""] 3).2.2.2.2 "X" [0, 1, 2] (by decide)
